import Mathlib

/-!
Verification development for the SunshineDAO moloch treasury module
(src/pallets/moloch/src/lib.rs) and the imbalance currency abstraction
(src/modules/traits/src/share.rs).

The runtime storage maps of the pallet are embedded as association lists,
the dispatchable calls as explicit state-passing functions, and the
external collaborators (org membership service, vote service, base
ledger, donation service) as oracle functions bundled into an `Env`
record, as the spec describes them at the interface boundary.
-/

/-- Account identifiers: either an ordinary (user) account or a derived
custodial bank sub-account (the image of `bank_account_id`, which is a
deterministic collision-resistant mapping with no private key, so the two
kinds of accounts never collide). -/
inductive AccountId where
  | user (n : Nat)
  | bankAccount (id : Nat)
deriving DecidableEq

/-- Error type: the variants of the pallet `decl_error!` block, plus
`Other` for dispatch errors produced by the collaborators or the ledger
(which are errors of other pallets, never of this module). -/
inductive Err where
  | LimitOfOneMolochPerOrg
  | CannotOpenBankAccountIfDepositIsBelowModuleMinimum
  | CannotCloseBankThatDNE
  | NotPermittedToOpenBankAccountForOrg
  | NotPermittedToProposeSpendForBankAccount
  | NotPermittedToTriggerVoteForBankAccount
  | NotPermittedToSudoApproveForBankAccount
  | MustBeOrgSupervisorToCloseBankAccount
  | BankMustExistToProposeFrom
  | CannotTriggerVoteIfBaseBankDNE
  | CannotTriggerVoteForSpendIfSpendProposalDNE
  | CannotTriggerVoteFromCurrentSpendProposalState
  | CannotSudoApproveSpendProposalIfBaseBankDNE
  | CannotSudoApproveSpendProposalIfSpendProposalDNE
  | CannotApproveAlreadyApprovedSpendProposal
  | CannotPollProposalIfBaseBankDNE
  | CannotPollProposalIfProposalDNE
  | CannotTriggerVoteForMemberIfMemberProposalDNE
  | CannotTriggerVoteFromCurrentMemberProposalState
  | MustBeMemberToSponsorMembershipProposal
  | NoBanksForOrg
  | Other (code : Nat)
deriving DecidableEq

/-- Modelled from the spec: outcome reported by the external vote service
(`get_outcome(vote_id) -> {Approved, Rejected, Pending}`). -/
inductive VoteOutcome where
  | Approved
  | Rejected
  | Pending
deriving DecidableEq

/-- Modelled from the spec: lifecycle state of a spend proposal
(`util::bank::SpendState`), shape
`WaitingForApproval -> Voting(vote_id) -> {ApprovedAndExecuted | ApprovedButNotExecuted}`. -/
inductive SpendState where
  | WaitingForApproval
  | Voting (voteId : Nat)
  | ApprovedAndExecuted
  | ApprovedButNotExecuted
deriving DecidableEq

/-- Modelled from the spec: lifecycle state of a membership proposal
(`util::moloch::ProposalState`), structurally identical to `SpendState`
but a distinct type in the source. -/
inductive ProposalState where
  | WaitingForApproval
  | Voting (voteId : Nat)
  | ApprovedAndExecuted
  | ApprovedButNotExecuted
deriving DecidableEq

/-- Modelled from the spec: `util::bank::BankState`, the registry entry of a
treasury: owning org and optional controller account (id and org immutable
for the life of the treasury). -/
structure BankState where
  id : Nat
  org : Nat
  controller : Option AccountId
deriving DecidableEq

/-- Modelled from the spec: `BankState::is_controller`: the sudo/close
authorization check succeeds exactly when the stored controller is this
caller (absent controller means organization-level supervision handles it,
outside this predicate). -/
def BankState.is_controller (b : BankState) (who : AccountId) : Bool :=
  b.controller = some who

/-- Modelled from the spec: `util::bank::SpendProposal` with identity
(bank id, spend id), the requested amount and destination, and its state. -/
structure SpendProposal where
  bank_id : Nat
  spend_id : Nat
  amount : Nat
  dest : AccountId
  state : SpendState
deriving DecidableEq

/-- Modelled from the spec: `SpendProposal::set_state` returns the proposal
with the new lifecycle state. -/
def SpendProposal.set_state (p : SpendProposal) (s : SpendState) : SpendProposal :=
  { p with state := s }

/-- Modelled from the spec: `util::moloch::MembershipProposal` with identity
(bank id, proposal id), tribute, shares requested, applicant, and state. -/
structure MembershipProposal where
  bank_id : Nat
  proposal_id : Nat
  tribute : Nat
  shares_requested : Nat
  applicant : AccountId
  state : ProposalState
deriving DecidableEq

/-- Modelled from the spec: `MembershipProposal::set_state`. -/
def MembershipProposal.set_state (p : MembershipProposal) (s : ProposalState) :
    MembershipProposal :=
  { p with state := s }

/-- Events of the pallet `decl_event!` block. -/
inductive Event where
  | BankAccountOpened (opener : AccountId) (bank : Nat) (deposit : Nat)
      (org : Nat) (controller : Option AccountId)
  | NewMemberProposal (caller : AccountId) (bank : Nat) (proposal : Nat)
      (tribute : Nat) (shares : Nat) (applicant : AccountId)
  | VoteTriggeredOnMemberProposal (caller : AccountId) (bank : Nat)
      (proposal : Nat) (vote : Nat)
  | SpendProposedByMember (caller : AccountId) (bank : Nat) (spend : Nat)
      (amount : Nat) (dest : AccountId)
  | VoteTriggeredOnSpendProposal (caller : AccountId) (bank : Nat)
      (spend : Nat) (vote : Nat)
  | SudoApprovedSpendProposal (caller : AccountId) (bank : Nat) (spend : Nat)
  | SpendProposalPolled (bank : Nat) (spend : Nat) (st : SpendState)
  | MemberProposalPolled (bank : Nat) (proposal : Nat) (st : ProposalState)
  | BankAccountClosed (closer : AccountId) (bank : Nat) (org : Nat)
deriving DecidableEq

section AssocList

variable {κ : Type} {β : Type} [DecidableEq κ]

/-- Lookup in an association list embedding of a runtime storage map. -/
def alookup : List (κ × β) → κ → Option β
  | [], _ => none
  | (k', v) :: rest, k => if k' = k then some v else alookup rest k

/-- Storage-map insert: overwrite the value if the key is present,
otherwise append the new entry. -/
def ainsert : List (κ × β) → κ → β → List (κ × β)
  | [], k, v => [(k, v)]
  | (k', v') :: rest, k, v =>
      if k' = k then (k, v) :: rest else (k', v') :: ainsert rest k v

/-- Storage-map remove: delete the (first) entry with the given key. -/
def aremove : List (κ × β) → κ → List (κ × β)
  | [], _ => []
  | (k', v') :: rest, k => if k' = k then rest else (k', v') :: aremove rest k

/-- The keys of an association list. -/
def akeys (m : List (κ × β)) : List κ := m.map Prod.fst

theorem alookup_ainsert_self (m : List (κ × β)) (k : κ) (v : β) :
    alookup (ainsert m k v) k = some v := by
  induction m with
  | nil => simp [ainsert, alookup]
  | cons hd tl ih =>
      obtain ⟨k', v'⟩ := hd
      by_cases h : k' = k <;> simp [ainsert, alookup, h, ih]

theorem alookup_ainsert_ne (m : List (κ × β)) (k k' : κ) (v : β) (h : k' ≠ k) :
    alookup (ainsert m k v) k' = alookup m k' := by
  have hk : k ≠ k' := Ne.symm h
  induction m with
  | nil => simp [ainsert, alookup, hk]
  | cons hd tl ih =>
      obtain ⟨k₀, v₀⟩ := hd
      by_cases h₀ : k₀ = k
      · subst h₀
        simp [ainsert, alookup, hk]
      · simp [ainsert, alookup, h₀, ih]

theorem ainsert_of_not_mem (m : List (κ × β)) (k : κ) (v : β)
    (h : alookup m k = none) : ainsert m k v = m ++ [(k, v)] := by
  induction m with
  | nil => simp [ainsert]
  | cons hd tl ih =>
      obtain ⟨k₀, v₀⟩ := hd
      by_cases h₀ : k₀ = k
      · simp [alookup, h₀] at h
      · simp [alookup, h₀] at h
        simp [ainsert, h₀, ih h]

theorem alookup_mem {m : List (κ × β)} {k : κ} {v : β}
    (h : alookup m k = some v) : (k, v) ∈ m := by
  induction m with
  | nil => simp [alookup] at h
  | cons hd tl ih =>
      obtain ⟨k₀, v₀⟩ := hd
      by_cases h₀ : k₀ = k
      · subst h₀
        simp [alookup] at h
        simp [h]
      · simp [alookup, h₀] at h
        exact List.mem_cons_of_mem _ (ih h)

theorem alookup_isSome_of_mem {m : List (κ × β)} {k : κ} {v : β}
    (h : (k, v) ∈ m) : (alookup m k).isSome := by
  induction m with
  | nil => simp at h
  | cons hd tl ih =>
      obtain ⟨k₀, v₀⟩ := hd
      by_cases h₀ : k₀ = k
      · simp [alookup, h₀]
      · rcases List.mem_cons.1 h with h₁ | h₁
        · cases h₁; simp at h₀
        · simpa [alookup, h₀] using ih h₁

theorem alookup_eq_none_iff {m : List (κ × β)} {k : κ} :
    alookup m k = none ↔ ∀ v, (k, v) ∉ m := by
  constructor
  · intro h v hv
    have := alookup_isSome_of_mem hv
    simp [h] at this
  · intro h
    cases hl : alookup m k with
    | none => rfl
    | some v => exact absurd (alookup_mem hl) (h v)

omit [DecidableEq κ] in
theorem akeys_cons (k : κ) (v : β) (m : List (κ × β)) :
    akeys ((k, v) :: m) = k :: akeys m := rfl

omit [DecidableEq κ] in
theorem mem_akeys {m : List (κ × β)} {k : κ} :
    k ∈ akeys m ↔ ∃ v, (k, v) ∈ m := by
  constructor
  · intro h
    obtain ⟨e, he, hek⟩ := List.mem_map.1 h
    exact ⟨e.2, by obtain ⟨a, b⟩ := e; cases hek; exact he⟩
  · rintro ⟨v, hv⟩
    exact List.mem_map.2 ⟨(k, v), hv, rfl⟩

theorem alookup_eq_none_of_not_mem_keys {m : List (κ × β)} {k : κ}
    (h : k ∉ akeys m) : alookup m k = none := by
  induction m with
  | nil => rfl
  | cons hd tl ih =>
      obtain ⟨k₀, v₀⟩ := hd
      rw [akeys_cons, List.mem_cons] at h
      push_neg at h
      simp [alookup, Ne.symm h.1, ih h.2]

theorem mem_keys_of_alookup_isSome {m : List (κ × β)} {k : κ}
    (h : (alookup m k).isSome) : k ∈ akeys m := by
  by_contra hk
  simp [alookup_eq_none_of_not_mem_keys hk] at h

theorem length_ainsert_of_none {m : List (κ × β)} {k : κ} (v : β)
    (h : alookup m k = none) : (ainsert m k v).length = m.length + 1 := by
  simp [ainsert_of_not_mem m k v h]

theorem length_aremove {m : List (κ × β)} {k : κ}
    (h : (alookup m k).isSome) : (aremove m k).length + 1 = m.length := by
  induction m with
  | nil => simp [alookup] at h
  | cons hd tl ih =>
      obtain ⟨k₀, v₀⟩ := hd
      by_cases h₀ : k₀ = k
      · simp [aremove, h₀]
      · simp [alookup, h₀] at h
        simp [aremove, h₀, ih h]

theorem alookup_aremove_ne (m : List (κ × β)) (k k' : κ) (h : k' ≠ k) :
    alookup (aremove m k) k' = alookup m k' := by
  induction m with
  | nil => rfl
  | cons hd tl ih =>
      obtain ⟨k₀, v₀⟩ := hd
      by_cases h₀ : k₀ = k
      · subst h₀
        have : k₀ ≠ k' := Ne.symm h
        simp [aremove, alookup, this]
      · simp [aremove, alookup, h₀, ih]

theorem mem_of_mem_aremove {m : List (κ × β)} {k : κ} {e : κ × β}
    (h : e ∈ aremove m k) : e ∈ m := by
  induction m with
  | nil => simp [aremove] at h
  | cons hd tl ih =>
      obtain ⟨k₀, v₀⟩ := hd
      by_cases h₀ : k₀ = k
      · simp only [aremove, if_pos h₀] at h
        exact List.mem_cons_of_mem _ h
      · simp only [aremove, if_neg h₀] at h
        rcases List.mem_cons.1 h with h₁ | h₁
        · exact h₁ ▸ List.mem_cons_self _ _
        · exact List.mem_cons_of_mem _ (ih h₁)

theorem mem_aremove_of_ne_key {m : List (κ × β)} {k : κ} {e : κ × β}
    (hm : e ∈ m) (hk : e.1 ≠ k) : e ∈ aremove m k := by
  induction m with
  | nil => simp at hm
  | cons hd tl ih =>
      obtain ⟨k₀, v₀⟩ := hd
      rcases List.mem_cons.1 hm with h | h
      · subst h
        simp only [aremove]
        rw [if_neg hk]
        simp
      · by_cases h₀ : k₀ = k
        · simpa [aremove, h₀] using h
        · simp only [aremove, if_neg h₀, List.mem_cons]
          exact Or.inr (ih h)

theorem akeys_ainsert_of_isSome {m : List (κ × β)} {k : κ} (v : β)
    (h : (alookup m k).isSome) : akeys (ainsert m k v) = akeys m := by
  induction m with
  | nil => simp [alookup] at h
  | cons hd tl ih =>
      obtain ⟨k₀, v₀⟩ := hd
      by_cases h₀ : k₀ = k
      · subst h₀
        simp [ainsert, akeys]
      · simp [alookup, h₀] at h
        simp [ainsert, h₀, akeys] at ih ⊢
        exact ih h

theorem akeys_nodup_ainsert {m : List (κ × β)} {k : κ} (v : β)
    (h : (akeys m).Nodup) : (akeys (ainsert m k v)).Nodup := by
  cases hl : alookup m k with
  | some v' =>
      rw [akeys_ainsert_of_isSome v (by simp [hl])]
      exact h
  | none =>
      rw [ainsert_of_not_mem m k v hl]
      have hk : k ∉ akeys m := fun hmem => by
        obtain ⟨v', hv'⟩ := mem_akeys.1 hmem
        have := alookup_isSome_of_mem hv'
        simp [hl] at this
      simpa [akeys, List.nodup_append] using And.intro h hk

theorem akeys_nodup_aremove {m : List (κ × β)} {k : κ}
    (h : (akeys m).Nodup) : (akeys (aremove m k)).Nodup := by
  induction m with
  | nil => simp [aremove, akeys]
  | cons hd tl ih =>
      obtain ⟨k₀, v₀⟩ := hd
      rw [akeys_cons, List.nodup_cons] at h
      by_cases h₀ : k₀ = k
      · simpa [aremove, h₀] using h.2
      · simp only [aremove, if_neg h₀, akeys_cons, List.nodup_cons]
        refine ⟨?_, ih h.2⟩
        intro hmem
        obtain ⟨v₁, hv₁⟩ := mem_akeys.1 hmem
        exact h.1 (mem_akeys.2 ⟨v₁, mem_of_mem_aremove hv₁⟩)

theorem alookup_aremove_self {m : List (κ × β)} {k : κ}
    (h : (akeys m).Nodup) : alookup (aremove m k) k = none := by
  induction m with
  | nil => rfl
  | cons hd tl ih =>
      obtain ⟨k₀, v₀⟩ := hd
      rw [akeys_cons, List.nodup_cons] at h
      by_cases h₀ : k₀ = k
      · subst h₀
        simpa [aremove] using alookup_eq_none_of_not_mem_keys h.1
      · simp [aremove, alookup, h₀, ih h.2]

end AssocList

/-- Fueled embedding of the id-generation probing loop
(`while Self::is_bank(id) { id += 1 }`): starting from `start`, return the
first id not reported taken, giving up after `fuel` probes. With fuel
exceeding the number of taken ids at or above `start`, this computes
exactly the value of the unbounded source loop. -/
def probeId (taken : Nat → Bool) : Nat → Nat → Nat
  | start, 0 => start
  | start, fuel + 1 => if taken start then probeId taken (start + 1) fuel else start

theorem probeId_spec (taken : Nat → Bool) (support : List Nat)
    (hsupp : ∀ i, taken i = true → i ∈ support) :
    ∀ fuel start, (support.filter (fun i => start ≤ i)).length < fuel →
      taken (probeId taken start fuel) = false ∧ start ≤ probeId taken start fuel := by
  intro fuel
  induction fuel with
  | zero => intro start h; omega
  | succ fuel ih =>
      intro start h
      by_cases ht : taken start = true
      · have hmem : start ∈ support := hsupp start ht
        have hsub : List.Sublist (support.filter (fun i => start + 1 ≤ i))
            (support.filter (fun i => start ≤ i)) :=
          List.monotone_filter_right support (fun a ha => by
            simp only [decide_eq_true_eq] at ha ⊢; omega)
        have hmem₁ : start ∈ support.filter (fun i => start ≤ i) :=
          List.mem_filter.2 ⟨hmem, by simp⟩
        have hmem₂ : start ∉ support.filter (fun i => start + 1 ≤ i) := by
          intro hc
          have := (List.mem_filter.1 hc).2
          simp at this
        have hlt : (support.filter (fun i => start + 1 ≤ i)).length <
            (support.filter (fun i => start ≤ i)).length := by
          rcases Nat.lt_or_ge (support.filter (fun i => start + 1 ≤ i)).length
              (support.filter (fun i => start ≤ i)).length with hc | hc
          · exact hc
          · have heq := hsub.eq_of_length (Nat.le_antisymm hsub.length_le hc)
            rw [heq] at hmem₂
            exact absurd hmem₁ hmem₂
        have := ih (start + 1) (by omega)
        simp only [probeId, if_pos ht]
        exact ⟨this.1, by omega⟩
      · simp only [probeId, if_neg ht]
        simp only [Bool.not_eq_true] at ht
        exact ⟨ht, Nat.le_refl _⟩

/-- The `decl_storage!` state of the moloch pallet, embedded as association
lists (iteration order of a storage map is unspecified on chain; the
embedding fixes insertion order). -/
structure Storage where
  bankIdNonce : Nat
  spendNonceMap : List (Nat × Nat)
  proposalNonceMap : List (Nat × Nat)
  totalBankCount : Nat
  orgBankRegistrar : List (Nat × Unit)
  bankStores : List (Nat × BankState)
  spendProps : List ((Nat × Nat) × SpendProposal)
  memberProps : List ((Nat × Nat) × MembershipProposal)
  spendPollFrequency : Nat
  memberPollFrequency : Nat
deriving DecidableEq

/-- The full observable state: module storage plus the external ledger
balances, the org share registry, and the emitted events. -/
structure World where
  store : Storage
  balances : List (AccountId × Nat)
  shares : List ((Nat × AccountId) × Nat)
  events : List Event
deriving DecidableEq

/-- Oracles for the external collaborators, as the spec describes them at
the interface boundary: org membership service, vote service, ledger
transfer admissibility (insufficient free balance, existential deposit and
liveness checks are the collaborator side of `Currency::transfer`), share
issuance admissibility, and the donation service used on close. -/
structure Env where
  minDeposit : Nat
  isMember : Nat → AccountId → Bool
  openVote : Nat → Option Nat
  voteOutcome : Nat → Option VoteOutcome
  transferOk : AccountId → AccountId → Nat → Bool
  issueOk : Nat → AccountId → Nat → Bool
  donateOk : AccountId → Nat → AccountId → Nat → Bool
  donateRedistribute : List (AccountId × Nat) → List (AccountId × Nat)

/-- `Module::bank_account_id`: deterministic derivation of the custodial
sub-account of a treasury. -/
def bank_account_id (id : Nat) : AccountId := .bankAccount id

def World.getBal (w : World) (a : AccountId) : Nat := (alookup w.balances a).getD 0

def World.getShares (w : World) (org : Nat) (a : AccountId) : Nat :=
  (alookup w.shares (org, a)).getD 0

def Storage.spendNonce (s : Storage) (bank : Nat) : Nat :=
  (alookup s.spendNonceMap bank).getD 0

def Storage.proposalNonce (s : Storage) (bank : Nat) : Nat :=
  (alookup s.proposalNonceMap bank).getD 0

/-- `Module::is_bank`. -/
def is_bank (w : World) (id : Nat) : Bool := (alookup w.store.bankStores id).isSome

/-- `Module::is_spend`. -/
def is_spend (w : World) (bank spend : Nat) : Bool :=
  (alookup w.store.spendProps (bank, spend)).isSome

/-- `Module::is_proposal`. -/
def is_proposal (w : World) (bank proposal : Nat) : Bool :=
  (alookup w.store.memberProps (bank, proposal)).isSome

/-- `Module::bank_balance`: total balance of the custodial account. -/
def bank_balance (w : World) (bank : Nat) : Nat := w.getBal (bank_account_id bank)

/-- `Currency::transfer` with `ExistenceRequirement::KeepAlive`: the oracle
decides admissibility; on success the amount moves between the two
accounts, on failure nothing happens and a ledger (non-module) error is
returned. -/
def doTransfer (env : Env) (src dest : AccountId) (amt : Nat) (w : World) :
    World × Except Err Unit :=
  if env.transferOk src dest amt then
    let w1 := { w with balances := ainsert w.balances src (w.getBal src - amt) }
    let w2 := { w1 with balances := ainsert w1.balances dest (w1.getBal dest + amt) }
    (w2, .ok ())
  else (w, .error (.Other 0))

/-- `org::Module::issue` (collaborator): mint shares for an account in an
org share registry, or fail with an org-pallet error. -/
def doIssue (env : Env) (org : Nat) (who : AccountId) (amt : Nat) (w : World) :
    World × Except Err Unit :=
  if env.issueOk org who amt then
    ({ w with shares := ainsert w.shares (org, who) (w.getShares org who + amt) }, .ok ())
  else (w, .error (.Other 1))

/-- `Module::generate_bank_uid`: increment the nonce, probe for a free bank
id, persist the nonce. -/
def generate_bank_uid (w : World) : World × Nat :=
  let id := probeId (fun i => is_bank w i) (w.store.bankIdNonce + 1)
    (w.store.bankStores.length + 1)
  ({ w with store.bankIdNonce := id }, id)

/-- `Module::generate_spend_uid`. -/
def generate_spend_uid (w : World) (seed : Nat) : World × Nat :=
  let id := probeId (fun i => is_spend w seed i) (w.store.spendNonce seed + 1)
    (w.store.spendProps.length + 1)
  ({ w with store.spendNonceMap := ainsert w.store.spendNonceMap seed id }, id)

/-- `Module::generate_proposal_uid`. -/
def generate_proposal_uid (w : World) (seed : Nat) : World × Nat :=
  let id := probeId (fun i => is_proposal w seed i) (w.store.proposalNonce seed + 1)
    (w.store.memberProps.length + 1)
  ({ w with store.proposalNonceMap := ainsert w.store.proposalNonceMap seed id }, id)

/-- `open_bank_account` (trait impl `OpenBankAccount`): minimum-deposit
check, id generation, fallible deposit transfer into the custodial
account, then registry insert and counter increment. -/
def open_bank_account (env : Env) (opener : AccountId) (org deposit : Nat)
    (controller : Option AccountId) (w : World) : World × Except Err Nat :=
  if deposit < env.minDeposit then
    (w, .error .CannotOpenBankAccountIfDepositIsBelowModuleMinimum)
  else
    let p := generate_bank_uid w
    let w1 := p.1
    let id := p.2
    let newBank : BankState := ⟨id, org, controller⟩
    match doTransfer env opener (bank_account_id id) deposit w1 with
    | (w2, .error e) => (w2, .error e)
    | (w2, .ok _) =>
        ({ w2 with
            store.bankStores := ainsert w2.store.bankStores id newBank,
            store.totalBankCount := w2.store.totalBankCount + 1 }, .ok id)

/-- Dispatchable `summon_moloch`: one-treasury-per-org registrar check,
caller-membership check, then `open_bank_account` and the registrar
insert, with the opened event. -/
def summon_moloch (env : Env) (caller : AccountId) (org deposit : Nat)
    (controller : Option AccountId) (w : World) : World × Except Err Unit :=
  if (alookup w.store.orgBankRegistrar org).isSome then
    (w, .error .LimitOfOneMolochPerOrg)
  else if env.isMember org caller then
    match open_bank_account env caller org deposit controller w with
    | (w1, .error e) => (w1, .error e)
    | (w1, .ok bankId) =>
        let w2 := { w1 with
          store.orgBankRegistrar := ainsert w1.store.orgBankRegistrar org () }
        ({ w2 with events :=
            w2.events ++ [.BankAccountOpened caller bankId deposit org controller] },
         .ok ())
  else (w, .error .NotPermittedToOpenBankAccountForOrg)

/-- `propose_spend` (trait impl `SpendGovernance`): bank lookup, caller
membership in the owning org, fresh spend id, store the proposal in
`WaitingForApproval`. -/
def propose_spend (env : Env) (caller : AccountId) (bank_id amount : Nat)
    (dest : AccountId) (w : World) : World × Except Err Nat :=
  match alookup w.store.bankStores bank_id with
  | none => (w, .error .BankMustExistToProposeFrom)
  | some bank =>
      if env.isMember bank.org caller then
        let p := generate_spend_uid w bank_id
        let w1 := p.1
        let newSpendId := p.2
        let prop : SpendProposal := ⟨bank_id, newSpendId, amount, dest, .WaitingForApproval⟩
        ({ w1 with store.spendProps :=
            ainsert w1.store.spendProps (bank_id, newSpendId) prop }, .ok newSpendId)
      else (w, .error .NotPermittedToProposeSpendForBankAccount)

/-- Dispatchable `member_proposes_spend`. -/
def member_proposes_spend (env : Env) (caller : AccountId) (bank_id amount : Nat)
    (dest : AccountId) (w : World) : World × Except Err Unit :=
  match propose_spend env caller bank_id amount dest w with
  | (w1, .error e) => (w1, .error e)
  | (w1, .ok sid) =>
      ({ w1 with events :=
          w1.events ++ [.SpendProposedByMember caller bank_id sid amount dest] }, .ok ())

/-- `trigger_vote_on_spend_proposal`: only from `WaitingForApproval`; opens
a unanimous-threshold vote over the org via the vote collaborator and
moves the proposal to `Voting(vote_id)`. -/
def trigger_vote_on_spend_proposal (env : Env) (caller : AccountId)
    (bank_id spend_id : Nat) (w : World) : World × Except Err Nat :=
  match alookup w.store.bankStores bank_id with
  | none => (w, .error .CannotTriggerVoteIfBaseBankDNE)
  | some bank =>
      if env.isMember bank.org caller then
        match alookup w.store.spendProps (bank_id, spend_id) with
        | none => (w, .error .CannotTriggerVoteForSpendIfSpendProposalDNE)
        | some sp =>
            match sp.state with
            | .WaitingForApproval =>
                match env.openVote bank.org with
                | none => (w, .error (.Other 2))
                | some vid =>
                    let props := ainsert w.store.spendProps (bank_id, spend_id)
                      (sp.set_state (.Voting vid))
                    ({ w with store.spendProps := props }, .ok vid)
            | _ => (w, .error .CannotTriggerVoteFromCurrentSpendProposalState)
      else (w, .error .NotPermittedToTriggerVoteForBankAccount)

/-- Dispatchable `member_triggers_vote_on_spend_proposal`. -/
def member_triggers_vote_on_spend_proposal (env : Env) (caller : AccountId)
    (bank_id spend_id : Nat) (w : World) : World × Except Err Unit :=
  match trigger_vote_on_spend_proposal env caller bank_id spend_id w with
  | (w1, .error e) => (w1, .error e)
  | (w1, .ok vid) =>
      let evs := w1.events ++ [.VoteTriggeredOnSpendProposal caller bank_id spend_id vid]
      ({ w1 with events := evs }, .ok ())

/-- `sudo_approve_spend_proposal`: controller-only; from
`WaitingForApproval` or `Voting(_)` it attempts the transfer from the
custodial account to the destination and lands in `ApprovedAndExecuted`
on success or `ApprovedButNotExecuted` on transfer failure, returning Ok
either way. -/
def sudo_approve_spend_proposal (env : Env) (caller : AccountId)
    (bank_id spend_id : Nat) (w : World) : World × Except Err Unit :=
  match alookup w.store.bankStores bank_id with
  | none => (w, .error .CannotSudoApproveSpendProposalIfBaseBankDNE)
  | some bank =>
      if bank.is_controller caller then
        match alookup w.store.spendProps (bank_id, spend_id) with
        | none => (w, .error .CannotSudoApproveSpendProposalIfSpendProposalDNE)
        | some sp =>
            match sp.state with
            | .WaitingForApproval =>
                let p := doTransfer env (bank_account_id bank_id) sp.dest sp.amount w
                let newSp := sp.set_state (match p.2 with
                  | .ok _ => .ApprovedAndExecuted
                  | .error _ => .ApprovedButNotExecuted)
                let props := ainsert p.1.store.spendProps (bank_id, spend_id) newSp
                ({ p.1 with store.spendProps := props }, .ok ())
            | .Voting _ =>
                let p := doTransfer env (bank_account_id bank_id) sp.dest sp.amount w
                let newSp := sp.set_state (match p.2 with
                  | .ok _ => .ApprovedAndExecuted
                  | .error _ => .ApprovedButNotExecuted)
                let props := ainsert p.1.store.spendProps (bank_id, spend_id) newSp
                ({ p.1 with store.spendProps := props }, .ok ())
            | _ => (w, .error .CannotApproveAlreadyApprovedSpendProposal)
      else (w, .error .NotPermittedToSudoApproveForBankAccount)

/-- Dispatchable `member_sudo_approves_spend_proposal`. -/
def member_sudo_approves_spend_proposal (env : Env) (caller : AccountId)
    (bank_id spend_id : Nat) (w : World) : World × Except Err Unit :=
  match sudo_approve_spend_proposal env caller bank_id spend_id w with
  | (w1, .error e) => (w1, .error e)
  | (w1, .ok _) =>
      let evs := w1.events ++ [.SudoApprovedSpendProposal caller bank_id spend_id]
      ({ w1 with events := evs }, .ok ())

/-- `poll_spend_proposal`: no-op returning the stored state unless the
proposal is in `Voting(vote_id)` and the vote collaborator reports
`Approved`, in which case the transfer is attempted and the proposal lands
in a terminal state. -/
def poll_spend_proposal (env : Env) (bank_id spend_id : Nat) (w : World) :
    World × Except Err SpendState :=
  match alookup w.store.bankStores bank_id with
  | none => (w, .error .CannotPollProposalIfBaseBankDNE)
  | some _ =>
      match alookup w.store.spendProps (bank_id, spend_id) with
      | none => (w, .error .CannotPollProposalIfProposalDNE)
      | some sp =>
          match sp.state with
          | .Voting vid =>
              match env.voteOutcome vid with
              | none => (w, .error (.Other 3))
              | some outcome =>
                  if outcome = .Approved then
                    let p := doTransfer env (bank_account_id bank_id) sp.dest sp.amount w
                    let newSp := sp.set_state (match p.2 with
                      | .ok _ => .ApprovedAndExecuted
                      | .error _ => .ApprovedButNotExecuted)
                    let props := ainsert p.1.store.spendProps (bank_id, spend_id) newSp
                    ({ p.1 with store.spendProps := props }, .ok newSp.state)
                  else (w, .ok sp.state)
          | st => (w, .ok st)

/-- `execute_member_proposal`: transfer the tribute from the applicant to
the custodial account, then mint the requested shares via the org
collaborator. The transfer is performed first; a later mint failure does
not reverse it. -/
def execute_member_proposal (env : Env) (bank : BankState) (applicant : AccountId)
    (tribute shares_to_mint : Nat) (w : World) : World × Except Err Unit :=
  match doTransfer env applicant (bank_account_id bank.id) tribute w with
  | (w1, .error e) => (w1, .error e)
  | (w1, .ok _) => doIssue env bank.org applicant shares_to_mint w1

/-- `propose_membership` (trait impl `MolochMembership`). -/
def propose_membership (env : Env) (caller : AccountId) (bank_id tribute shares_requested : Nat)
    (applicant : AccountId) (w : World) : World × Except Err Nat :=
  match alookup w.store.bankStores bank_id with
  | none => (w, .error .BankMustExistToProposeFrom)
  | some bank =>
      if env.isMember bank.org caller then
        let p := generate_proposal_uid w bank_id
        let w1 := p.1
        let id := p.2
        let prop : MembershipProposal :=
          ⟨bank_id, id, tribute, shares_requested, applicant, .WaitingForApproval⟩
        let props := ainsert w1.store.memberProps (bank_id, id) prop
        ({ w1 with store.memberProps := props }, .ok id)
      else (w, .error .MustBeMemberToSponsorMembershipProposal)

/-- Dispatchable `member_proposes_member`. -/
def member_proposes_member (env : Env) (caller : AccountId)
    (bank_id tribute shares_requested : Nat) (applicant : AccountId) (w : World) :
    World × Except Err Unit :=
  match propose_membership env caller bank_id tribute shares_requested applicant w with
  | (w1, .error e) => (w1, .error e)
  | (w1, .ok pid) =>
      let evs := w1.events ++
        [.NewMemberProposal caller bank_id pid tribute shares_requested applicant]
      ({ w1 with events := evs }, .ok ())

/-- `trigger_vote_on_member_proposal`. -/
def trigger_vote_on_member_proposal (env : Env) (caller : AccountId)
    (bank_id proposal_id : Nat) (w : World) : World × Except Err Nat :=
  match alookup w.store.bankStores bank_id with
  | none => (w, .error .CannotTriggerVoteIfBaseBankDNE)
  | some bank =>
      if env.isMember bank.org caller then
        match alookup w.store.memberProps (bank_id, proposal_id) with
        | none => (w, .error .CannotTriggerVoteForMemberIfMemberProposalDNE)
        | some mp =>
            match mp.state with
            | .WaitingForApproval =>
                match env.openVote bank.org with
                | none => (w, .error (.Other 2))
                | some vid =>
                    let props := ainsert w.store.memberProps (bank_id, proposal_id)
                      (mp.set_state (.Voting vid))
                    ({ w with store.memberProps := props }, .ok vid)
            | _ => (w, .error .CannotTriggerVoteFromCurrentMemberProposalState)
      else (w, .error .NotPermittedToTriggerVoteForBankAccount)

/-- Dispatchable `member_triggers_vote_on_member_proposal`. -/
def member_triggers_vote_on_member_proposal (env : Env) (caller : AccountId)
    (bank_id proposal_id : Nat) (w : World) : World × Except Err Unit :=
  match trigger_vote_on_member_proposal env caller bank_id proposal_id w with
  | (w1, .error e) => (w1, .error e)
  | (w1, .ok vid) =>
      let evs := w1.events ++ [.VoteTriggeredOnMemberProposal caller bank_id proposal_id vid]
      ({ w1 with events := evs }, .ok ())

/-- `poll_membership_proposal`: like `poll_spend_proposal`, with
`execute_member_proposal` as the execution action; an execution failure is
folded into `ApprovedButNotExecuted` (the world returned by the partially
executed action is kept). -/
def poll_membership_proposal (env : Env) (bank_id proposal_id : Nat) (w : World) :
    World × Except Err ProposalState :=
  match alookup w.store.bankStores bank_id with
  | none => (w, .error .CannotPollProposalIfBaseBankDNE)
  | some bank =>
      match alookup w.store.memberProps (bank_id, proposal_id) with
      | none => (w, .error .CannotPollProposalIfProposalDNE)
      | some mp =>
          match mp.state with
          | .Voting vid =>
              match env.voteOutcome vid with
              | none => (w, .error (.Other 3))
              | some outcome =>
                  if outcome = .Approved then
                    let p := execute_member_proposal env bank mp.applicant
                      mp.tribute mp.shares_requested w
                    let newMp := mp.set_state (match p.2 with
                      | .ok _ => .ApprovedAndExecuted
                      | .error _ => .ApprovedButNotExecuted)
                    let props := ainsert p.1.store.memberProps (bank_id, proposal_id) newMp
                    ({ p.1 with store.memberProps := props }, .ok newMp.state)
                  else (w, .ok mp.state)
          | st => (w, .ok st)

/-- Dispatchable `close_org_bank_account`: controller-only; donates the
remaining custodial balance pro-rata via the donation collaborator, then
deletes the registry entry, decrements the counter and releases the
one-treasury-per-org slot. -/
def close_org_bank_account (env : Env) (closer : AccountId) (bank_id : Nat)
    (w : World) : World × Except Err Unit :=
  match alookup w.store.bankStores bank_id with
  | none => (w, .error .CannotCloseBankThatDNE)
  | some bank =>
      if bank.is_controller closer then
        let remaining := w.getBal (bank_account_id bank_id)
        if env.donateOk (bank_account_id bank_id) bank.org closer remaining then
          let w1 := { w with balances := env.donateRedistribute w.balances }
          let banks := aremove w1.store.bankStores bank_id
          let reg := aremove w1.store.orgBankRegistrar bank.org
          let evs := w1.events ++ [.BankAccountClosed closer bank_id bank.org]
          ({ w1 with
              store.bankStores := banks,
              store.totalBankCount := w1.store.totalBankCount - 1,
              store.orgBankRegistrar := reg,
              events := evs },
           .ok ())
        else (w, .error (.Other 4))
      else (w, .error .MustBeOrgSupervisorToCloseBankAccount)

/-- The spend sweep of `on_finalize`: poll each enumerated spend proposal
in order, emitting a polled event per successful poll; the error-collecting
`collect::<DispatchResult>()` short-circuits, so the sweep stops at the
first poll that returns an error (the error itself is discarded). -/
def sweep_spend (env : Env) : List (Nat × Nat) → World → World
  | [], w => w
  | (bid, sid) :: rest, w =>
      match poll_spend_proposal env bid sid w with
      | (w1, .ok st) =>
          sweep_spend env rest
            { w1 with events := w1.events ++ [.SpendProposalPolled bid sid st] }
      | (w1, .error _) => w1

/-- The membership sweep of `on_finalize`, analogous to `sweep_spend`. -/
def sweep_member (env : Env) : List (Nat × Nat) → World → World
  | [], w => w
  | (bid, pid) :: rest, w =>
      match poll_membership_proposal env bid pid w with
      | (w1, .ok st) =>
          sweep_member env rest
            { w1 with events := w1.events ++ [.MemberProposalPolled bid pid st] }
      | (w1, .error _) => w1

/-- The per-block `on_finalize` hook: when the block number is an exact
multiple of the spend poll frequency, sweep all stored spend proposals;
independently, when it is an exact multiple of the membership poll
frequency, sweep all stored membership proposals. -/
def on_finalize (env : Env) (n : Nat) (w : World) : World :=
  let w1 :=
    if n % w.store.spendPollFrequency = 0 then
      sweep_spend env (akeys w.store.spendProps) w
    else w
  if n % w1.store.memberPollFrequency = 0 then
    sweep_member env (akeys w1.store.memberProps) w1
  else w1

/-- The externally invokable operations of the module: the seven
dispatchable calls, the two trait-level poll entry points, and the
per-block finalize hook. -/
inductive Op where
  | summon (caller : AccountId) (org deposit : Nat) (controller : Option AccountId)
  | proposeSpend (caller : AccountId) (bank amount : Nat) (dest : AccountId)
  | triggerVoteSpend (caller : AccountId) (bank spend : Nat)
  | sudoApproveSpend (caller : AccountId) (bank spend : Nat)
  | pollSpend (bank spend : Nat)
  | proposeMember (caller : AccountId) (bank tribute shares : Nat) (applicant : AccountId)
  | triggerVoteMember (caller : AccountId) (bank proposal : Nat)
  | pollMember (bank proposal : Nat)
  | closeBank (closer : AccountId) (bank : Nat)
  | finalize (n : Nat)
deriving DecidableEq

/-- Apply one operation; the returned world reflects every storage write
the handler performed before returning (the runtime of this pallet applies
writes immediately, with no rollback on a dispatch error), and the
returned result is the dispatch result. -/
def applyOpE (env : Env) : Op → World → World × Except Err Unit
  | .summon caller org deposit controller, w =>
      summon_moloch env caller org deposit controller w
  | .proposeSpend caller bank amount dest, w =>
      member_proposes_spend env caller bank amount dest w
  | .triggerVoteSpend caller bank spend, w =>
      member_triggers_vote_on_spend_proposal env caller bank spend w
  | .sudoApproveSpend caller bank spend, w =>
      member_sudo_approves_spend_proposal env caller bank spend w
  | .pollSpend bank spend, w =>
      let p := poll_spend_proposal env bank spend w
      (p.1, p.2.map fun _ => ())
  | .proposeMember caller bank tribute shares applicant, w =>
      member_proposes_member env caller bank tribute shares applicant w
  | .triggerVoteMember caller bank proposal, w =>
      member_triggers_vote_on_member_proposal env caller bank proposal w
  | .pollMember bank proposal, w =>
      let p := poll_membership_proposal env bank proposal w
      (p.1, p.2.map fun _ => ())
  | .closeBank closer bank, w =>
      close_org_bank_account env closer bank w
  | .finalize n, w => (on_finalize env n w, .ok ())

/-- The world after one operation. -/
def applyOp (env : Env) (op : Op) (w : World) : World := (applyOpE env op w).1

/-- Genesis state: empty storage, the two configured poll cadences, and
arbitrary initial ledger balances and share registries. -/
def initWorld (f₁ f₂ : Nat) (bal : List (AccountId × Nat))
    (sh : List ((Nat × AccountId) × Nat)) : World :=
  { store :=
      { bankIdNonce := 0
        spendNonceMap := []
        proposalNonceMap := []
        totalBankCount := 0
        orgBankRegistrar := []
        bankStores := []
        spendProps := []
        memberProps := []
        spendPollFrequency := f₁
        memberPollFrequency := f₂ }
    balances := bal
    shares := sh
    events := [] }

/-- Reachability: the states obtainable from genesis by any sequence of
operations, under arbitrary (per-step varying) collaborator behavior. -/
inductive Reachable : World → Prop
  | init (f₁ f₂ : Nat) (bal : List (AccountId × Nat))
      (sh : List ((Nat × AccountId) × Nat)) : Reachable (initWorld f₁ f₂ bal sh)
  | step (env : Env) (op : Op) {w : World} :
      Reachable w → Reachable (applyOp env op w)

/-- Modelled from the spec: the positive imbalance token (funds created
and not yet destroyed elsewhere). Only the trait is in the sources; the
token is a magnitude, and the move-only/linear-use discipline is a host
language property outside the embedding. -/
structure PositiveImbalance where
  val : Nat
deriving DecidableEq

/-- Modelled from the spec: the negative imbalance token (funds destroyed
and not yet created elsewhere). -/
structure NegativeImbalance where
  val : Nat
deriving DecidableEq

/-- Modelled from the spec: non-consuming magnitude read. -/
def PositiveImbalance.peek (t : PositiveImbalance) : Nat := t.val

/-- Modelled from the spec: the zero imbalance. -/
def PositiveImbalance.zero : PositiveImbalance := ⟨0⟩

/-- Modelled from the spec: consume the token and return two independent
tokens, the first at most `amount` and the second the remainder. -/
def PositiveImbalance.split (t : PositiveImbalance) (amount : Nat) :
    PositiveImbalance × PositiveImbalance :=
  let first := min t.val amount
  (⟨first⟩, ⟨t.val - first⟩)

/-- Modelled from the spec: combine two same-polarity tokens. -/
def PositiveImbalance.merge (a b : PositiveImbalance) : PositiveImbalance :=
  ⟨a.val + b.val⟩

def NegativeImbalance.peek (t : NegativeImbalance) : Nat := t.val

def NegativeImbalance.zero : NegativeImbalance := ⟨0⟩

def NegativeImbalance.split (t : NegativeImbalance) (amount : Nat) :
    NegativeImbalance × NegativeImbalance :=
  let first := min t.val amount
  (⟨first⟩, ⟨t.val - first⟩)

def NegativeImbalance.merge (a b : NegativeImbalance) : NegativeImbalance :=
  ⟨a.val + b.val⟩

/-- Modelled from the spec: net a positive token against its
polarity-opposite, consuming both; the side with the greater-or-equal
magnitude remains, carrying the leftover magnitude. -/
def PositiveImbalance.offset (t : PositiveImbalance) (o : NegativeImbalance) :
    Except NegativeImbalance PositiveImbalance :=
  if o.val ≤ t.val then .ok ⟨t.val - o.val⟩ else .error ⟨o.val - t.val⟩

def NegativeImbalance.offset (t : NegativeImbalance) (o : PositiveImbalance) :
    Except PositiveImbalance NegativeImbalance :=
  if o.val ≤ t.val then .ok ⟨t.val - o.val⟩ else .error ⟨o.val - t.val⟩

/-- `SignedImbalance` (src/modules/traits/src/share.rs): either polarity. -/
inductive SignedImbalance where
  | Positive (p : PositiveImbalance)
  | Negative (n : NegativeImbalance)
deriving DecidableEq

/-- `SignedImbalance::merge` from the source: equal polarities merge
directly; a positive/negative pair nets by `offset`, keeping the polarity
of the strictly greater side (the mixed Negative/Positive arm delegates by
swapping the arguments, inlined here). -/
def SignedImbalance.merge : SignedImbalance → SignedImbalance → SignedImbalance
  | .Positive one, .Positive other => .Positive (one.merge other)
  | .Negative one, .Negative other => .Negative (one.merge other)
  | .Positive one, .Negative other =>
      if other.peek < one.peek then
        .Positive (match one.offset other with | .ok x => x | .error _ => .zero)
      else
        .Negative (match other.offset one with | .ok x => x | .error _ => .zero)
  | .Negative one, .Positive other =>
      if one.peek < other.peek then
        .Positive (match other.offset one with | .ok x => x | .error _ => .zero)
      else
        .Negative (match one.offset other with | .ok x => x | .error _ => .zero)

/-- Claim C8: imbalance tokens conserve magnitude: the two halves of
`t.split(a)` have peek values summing to `t.peek()` with the first at most
`a` (for either polarity), and `p.offset(n)` consumes both tokens leaving
a single token of magnitude the absolute difference of the two peeks,
with the polarity of the strictly larger input. -/
theorem imbalance_split_offset_conserve (p : PositiveImbalance)
    (n : NegativeImbalance) (a : Nat) :
    (p.split a).1.peek + (p.split a).2.peek = p.peek
    ∧ (p.split a).1.peek ≤ a
    ∧ (n.split a).1.peek + (n.split a).2.peek = n.peek
    ∧ (n.split a).1.peek ≤ a
    ∧ (n.peek < p.peek → p.offset n = .ok ⟨p.peek - n.peek⟩)
    ∧ (p.peek < n.peek → p.offset n = .error ⟨n.peek - p.peek⟩)
    ∧ (match p.offset n with | .ok r => r.peek | .error r => r.peek)
        = max p.peek n.peek - min p.peek n.peek := by
  obtain ⟨pv⟩ := p
  obtain ⟨nv⟩ := n
  refine ⟨?_, ?_, ?_, ?_, ?_, ?_, ?_⟩
  · simp only [PositiveImbalance.split, PositiveImbalance.peek]
    omega
  · simp only [PositiveImbalance.split, PositiveImbalance.peek]
    omega
  · simp only [NegativeImbalance.split, NegativeImbalance.peek]
    omega
  · simp only [NegativeImbalance.split, NegativeImbalance.peek]
    omega
  · intro h
    simp only [PositiveImbalance.peek, NegativeImbalance.peek] at h ⊢
    simp [PositiveImbalance.offset, Nat.le_of_lt h]
  · intro h
    simp only [PositiveImbalance.peek, NegativeImbalance.peek] at h ⊢
    simp [PositiveImbalance.offset, Nat.not_le.2 h]
  · simp only [PositiveImbalance.offset, PositiveImbalance.peek,
      NegativeImbalance.peek]
    by_cases h : nv ≤ pv
    · rw [if_pos h]
      simp only [PositiveImbalance.peek, Nat.max_eq_left h, Nat.min_eq_right h]
    · rw [if_neg h]
      have h' : pv ≤ nv := Nat.le_of_not_le h
      simp only [NegativeImbalance.peek, Nat.max_eq_right h', Nat.min_eq_left h']

/-- Witness for C8 at concrete tokens: offsetting magnitude 5 against 3
leaves a positive token of magnitude 2, and 3 against 7 leaves a negative
token of magnitude 4. -/
theorem imbalance_split_offset_conserve_witness :
    PositiveImbalance.offset ⟨5⟩ ⟨3⟩ = .ok ⟨2⟩
    ∧ PositiveImbalance.offset ⟨3⟩ ⟨7⟩ = .error ⟨4⟩ :=
  ⟨(imbalance_split_offset_conserve ⟨5⟩ ⟨3⟩ 0).2.2.2.2.1 (by decide),
   (imbalance_split_offset_conserve ⟨3⟩ ⟨7⟩ 0).2.2.2.2.2.1 (by decide)⟩

theorem generate_bank_uid_spec (w : World) :
    w.store.bankIdNonce + 1 ≤ (generate_bank_uid w).2
    ∧ alookup w.store.bankStores (generate_bank_uid w).2 = none := by
  have hspec := probeId_spec (fun i => is_bank w i) (akeys w.store.bankStores)
    (fun i hi => by
      simp only [is_bank] at hi
      exact mem_keys_of_alookup_isSome hi)
    (w.store.bankStores.length + 1) (w.store.bankIdNonce + 1)
    (by
      have h₁ := List.length_filter_le (fun i => w.store.bankIdNonce + 1 ≤ i)
        (akeys w.store.bankStores)
      have h₂ : (akeys w.store.bankStores).length = w.store.bankStores.length :=
        List.length_map _ _
      omega)
  refine ⟨hspec.2, ?_⟩
  have h := hspec.1
  simp only [is_bank] at h
  simp only [generate_bank_uid, is_bank]
  exact Option.not_isSome_iff_eq_none.1 (by simp [h])

theorem generate_spend_uid_spec (w : World) (seed : Nat) :
    w.store.spendNonce seed + 1 ≤ (generate_spend_uid w seed).2
    ∧ alookup w.store.spendProps (seed, (generate_spend_uid w seed).2) = none := by
  have hspec := probeId_spec (fun i => is_spend w seed i)
    (w.store.spendProps.filterMap (fun e => if e.1.1 = seed then some e.1.2 else none))
    (fun i hi => by
      simp only [is_spend] at hi
      obtain ⟨v, hv⟩ := Option.isSome_iff_exists.1 hi
      refine List.mem_filterMap.2 ⟨((seed, i), v), alookup_mem hv, by simp⟩)
    (w.store.spendProps.length + 1) (w.store.spendNonce seed + 1)
    (by
      have h₁ := List.length_filter_le (fun i => w.store.spendNonce seed + 1 ≤ i)
        (w.store.spendProps.filterMap
          (fun e => if e.1.1 = seed then some e.1.2 else none))
      have h₂ := List.length_filterMap_le
        (fun e : (Nat × Nat) × SpendProposal =>
          if e.1.1 = seed then some e.1.2 else none) w.store.spendProps
      omega)
  refine ⟨hspec.2, ?_⟩
  have h := hspec.1
  simp only [is_spend] at h
  simp only [generate_spend_uid, is_spend]
  exact Option.not_isSome_iff_eq_none.1 (by simp [h])

theorem generate_proposal_uid_spec (w : World) (seed : Nat) :
    w.store.proposalNonce seed + 1 ≤ (generate_proposal_uid w seed).2
    ∧ alookup w.store.memberProps (seed, (generate_proposal_uid w seed).2) = none := by
  have hspec := probeId_spec (fun i => is_proposal w seed i)
    (w.store.memberProps.filterMap (fun e => if e.1.1 = seed then some e.1.2 else none))
    (fun i hi => by
      simp only [is_proposal] at hi
      obtain ⟨v, hv⟩ := Option.isSome_iff_exists.1 hi
      refine List.mem_filterMap.2 ⟨((seed, i), v), alookup_mem hv, by simp⟩)
    (w.store.memberProps.length + 1) (w.store.proposalNonce seed + 1)
    (by
      have h₁ := List.length_filter_le (fun i => w.store.proposalNonce seed + 1 ≤ i)
        (w.store.memberProps.filterMap
          (fun e => if e.1.1 = seed then some e.1.2 else none))
      have h₂ := List.length_filterMap_le
        (fun e : (Nat × Nat) × MembershipProposal =>
          if e.1.1 = seed then some e.1.2 else none) w.store.memberProps
      omega)
  refine ⟨hspec.2, ?_⟩
  have h := hspec.1
  simp only [is_proposal] at h
  simp only [generate_proposal_uid, is_proposal]
  exact Option.not_isSome_iff_eq_none.1 (by simp [h])

/-- Claim C1: for every bank, spend proposal and caller such that the bank
exists, the caller is the bank controller, and the stored state is
`WaitingForApproval` or `Voting(_)`, `sudo_approve_spend_proposal` returns
Ok, and the stored state afterwards is exactly `ApprovedAndExecuted` when
the custodial transfer succeeds and `ApprovedButNotExecuted` when it
fails. -/
theorem sudo_approve_lands_terminal (env : Env) (caller : AccountId)
    (bank_id spend_id : Nat) (w : World) (bank : BankState) (sp : SpendProposal)
    (hb : alookup w.store.bankStores bank_id = some bank)
    (hc : bank.is_controller caller = true)
    (hsp : alookup w.store.spendProps (bank_id, spend_id) = some sp)
    (hst : sp.state = .WaitingForApproval ∨ ∃ v, sp.state = .Voting v) :
    (sudo_approve_spend_proposal env caller bank_id spend_id w).2 = .ok ()
    ∧ alookup (sudo_approve_spend_proposal env caller bank_id spend_id w).1.store.spendProps
        (bank_id, spend_id) =
      some (sp.set_state
        (if env.transferOk (bank_account_id bank_id) sp.dest sp.amount = true
          then .ApprovedAndExecuted else .ApprovedButNotExecuted)) := by
  rcases hst with h | ⟨v, h⟩ <;>
  · simp only [sudo_approve_spend_proposal, hb, hc, hsp, h]
    by_cases htr : env.transferOk (bank_account_id bank_id) sp.dest sp.amount = true
    · simp [doTransfer, htr, alookup_ainsert_self]
    · simp [doTransfer, htr, alookup_ainsert_self]

/-- Concrete fixtures used by witnesses: a world with one bank (id 1,
org 1, controller user 0) holding one spend proposal (id 1, amount 3 to
user 2, waiting) and one voting spend proposal (id 2), and an environment
whose collaborators all succeed. -/
def bankW : BankState := ⟨1, 1, some (.user 0)⟩

def spW : SpendProposal := ⟨1, 1, 3, .user 2, .WaitingForApproval⟩

def spW2 : SpendProposal := ⟨1, 2, 3, .user 2, .Voting 7⟩

def storeW : Storage :=
  { bankIdNonce := 1
    spendNonceMap := [(1, 2)]
    proposalNonceMap := []
    totalBankCount := 1
    orgBankRegistrar := [(1, ())]
    bankStores := [(1, bankW)]
    spendProps := [((1, 1), spW), ((1, 2), spW2)]
    memberProps := []
    spendPollFrequency := 5
    memberPollFrequency := 5 }

def wW : World :=
  { store := storeW
    balances := [(.bankAccount 1, 100)]
    shares := []
    events := [] }

def envW : Env :=
  { minDeposit := 10
    isMember := fun _ _ => true
    openVote := fun _ => some 7
    voteOutcome := fun _ => some .Approved
    transferOk := fun _ _ _ => true
    issueOk := fun _ _ _ => true
    donateOk := fun _ _ _ _ => true
    donateRedistribute := fun b => b }

/-- Environment identical to `envW` except that the vote service reports
`Pending` for every vote. -/
def envPending : Env :=
  { envW with voteOutcome := fun _ => some .Pending }

/-- Witness for C1 at the concrete fixtures. -/
theorem sudo_approve_lands_terminal_witness :
    (sudo_approve_spend_proposal envW (.user 0) 1 1 wW).2 = .ok ()
    ∧ alookup (sudo_approve_spend_proposal envW (.user 0) 1 1 wW).1.store.spendProps
        (1, 1) =
      some (spW.set_state
        (if envW.transferOk (bank_account_id 1) spW.dest spW.amount = true
          then .ApprovedAndExecuted else .ApprovedButNotExecuted)) :=
  sudo_approve_lands_terminal envW (.user 0) 1 1 wW bankW spW (by decide)
    (by decide) (by decide) (Or.inl (by decide))

/-- Claim C3: for an existing bank and existing spend proposal,
`poll_spend_proposal` returns the current stored state and changes nothing
unless the state is `Voting(v)` with the vote service reporting Approved;
in particular terminal states are returned unchanged by any number of
polls, and a voting proposal whose reported outcome is not Approved stays
in the unchanged `Voting` state. -/
theorem poll_spend_noop_unless_approved (env : Env) (bank_id spend_id : Nat)
    (w : World) (bank : BankState) (sp : SpendProposal)
    (hb : alookup w.store.bankStores bank_id = some bank)
    (hsp : alookup w.store.spendProps (bank_id, spend_id) = some sp)
    (hnv : ∀ v, sp.state = .Voting v →
      ∃ o, env.voteOutcome v = some o ∧ o ≠ .Approved) :
    poll_spend_proposal env bank_id spend_id w = (w, .ok sp.state) := by
  simp only [poll_spend_proposal, hb, hsp]
  cases hs : sp.state with
  | WaitingForApproval => simp
  | Voting v =>
      obtain ⟨o, ho, hno⟩ := hnv v hs
      simp [ho, hno]
  | ApprovedAndExecuted => simp
  | ApprovedButNotExecuted => simp

/-- Witness for C3: polling the voting proposal (1,2) under a vote service
reporting Pending returns the unchanged `Voting 7` state and world. -/
theorem poll_spend_noop_unless_approved_witness :
    poll_spend_proposal envPending 1 2 wW = (wW, .ok spW2.state) :=
  poll_spend_noop_unless_approved envPending 1 2 wW bankW spW2 (by decide)
    (by decide)
    (fun v hv => ⟨.Pending, rfl, by decide⟩)

/-- Claim C9: `propose_spend` fails with the not-found error when the bank
does not exist and the not-a-member error when the caller is outside the
owning org (in both cases changing nothing); otherwise it succeeds
returning a spend id that is never zero and identified no existing
proposal of that bank at call time, and stores a proposal with exactly the
given amount and destination in `WaitingForApproval` under that id. -/
theorem propose_spend_fresh_nonzero (env : Env) (caller : AccountId)
    (bank_id amount : Nat) (dest : AccountId) (w : World) :
    (alookup w.store.bankStores bank_id = none →
        propose_spend env caller bank_id amount dest w =
          (w, .error .BankMustExistToProposeFrom))
    ∧ (∀ bank, alookup w.store.bankStores bank_id = some bank →
        env.isMember bank.org caller = false →
        propose_spend env caller bank_id amount dest w =
          (w, .error .NotPermittedToProposeSpendForBankAccount))
    ∧ (∀ bank, alookup w.store.bankStores bank_id = some bank →
        env.isMember bank.org caller = true →
        ∃ id, (propose_spend env caller bank_id amount dest w).2 = .ok id
          ∧ id ≠ 0
          ∧ alookup w.store.spendProps (bank_id, id) = none
          ∧ alookup (propose_spend env caller bank_id amount dest w).1.store.spendProps
              (bank_id, id) = some ⟨bank_id, id, amount, dest, .WaitingForApproval⟩) := by
  refine ⟨?_, ?_, ?_⟩
  · intro h
    simp [propose_spend, h]
  · intro bank hb hm
    simp [propose_spend, hb, hm]
  · intro bank hb hm
    have hgen := generate_spend_uid_spec w bank_id
    refine ⟨(generate_spend_uid w bank_id).2, ?_, ?_, hgen.2, ?_⟩
    · simp [propose_spend, hb, hm]
    · omega
    · simp only [propose_spend, hb, hm, if_pos rfl]
      simp [generate_spend_uid, alookup_ainsert_self]

/-- Witness for C9: proposing a spend of 4 to user 2 on bank 1 in the
concrete world succeeds with a fresh nonzero id. -/
theorem propose_spend_fresh_nonzero_witness :
    ∃ id, (propose_spend envW (.user 0) 1 4 (.user 2) wW).2 = .ok id
      ∧ id ≠ 0
      ∧ alookup wW.store.spendProps (1, id) = none
      ∧ alookup (propose_spend envW (.user 0) 1 4 (.user 2) wW).1.store.spendProps
          (1, id) = some ⟨1, id, 4, .user 2, .WaitingForApproval⟩ :=
  (propose_spend_fresh_nonzero envW (.user 0) 1 4 (.user 2) wW).2.2 bankW
    (by decide) rfl

/-- Fixture for the membership-execution claim: bank 1 (org 1) with one
membership proposal (id 1): tribute 5, 10 shares requested, applicant
user 3, in `Voting 9`; user 3 holds 50, the custodial account 100. -/
def mpM : MembershipProposal := ⟨1, 1, 5, 10, .user 3, .Voting 9⟩

def wM : World :=
  { store :=
      { bankIdNonce := 1
        spendNonceMap := []
        proposalNonceMap := [(1, 1)]
        totalBankCount := 1
        orgBankRegistrar := [(1, ())]
        bankStores := [(1, bankW)]
        spendProps := []
        memberProps := [((1, 1), mpM)]
        spendPollFrequency := 5
        memberPollFrequency := 5 }
    balances := [(.user 3, 50), (.bankAccount 1, 100)]
    shares := []
    events := [] }

/-- Environment in which the vote is approved and the ledger transfer is
admissible, but the org collaborator cannot mint the requested shares. -/
def envNoMint : Env :=
  { envW with issueOk := fun _ _ _ => false }

/-- Claim C2 (violated by the code): when the approved membership
proposal (1,1) is polled and the tribute transfer succeeds but the share
mint fails, the code lands in `ApprovedButNotExecuted` while the tribute
transfer is left in effect (user 3 lost 5, the custodial account gained 5,
no shares were minted): execution is observably partial, not atomic. -/
theorem membership_execution_not_atomic :
    (poll_membership_proposal envNoMint 1 1 wM).2 = .ok .ApprovedButNotExecuted
    ∧ (poll_membership_proposal envNoMint 1 1 wM).1.getBal (.user 3) = 45
    ∧ (poll_membership_proposal envNoMint 1 1 wM).1.getBal (.bankAccount 1) = 105
    ∧ (poll_membership_proposal envNoMint 1 1 wM).1.getShares 1 (.user 3) = 0
    ∧ wM.getBal (.user 3) = 50
    ∧ wM.getBal (.bankAccount 1) = 100 :=
  ⟨rfl, rfl, rfl, rfl, rfl, rfl⟩

theorem doTransfer_frame (env : Env) (s d : AccountId) (a : Nat) (w : World) :
    (doTransfer env s d a w).1.store = w.store
    ∧ (doTransfer env s d a w).1.shares = w.shares
    ∧ (doTransfer env s d a w).1.events = w.events := by
  unfold doTransfer
  split <;> simp

theorem doIssue_frame (env : Env) (org : Nat) (who : AccountId) (a : Nat) (w : World) :
    (doIssue env org who a w).1.store = w.store
    ∧ (doIssue env org who a w).1.balances = w.balances
    ∧ (doIssue env org who a w).1.events = w.events := by
  unfold doIssue
  split <;> simp

theorem execute_member_frame (env : Env) (bank : BankState) (applicant : AccountId)
    (tribute shares : Nat) (w : World) :
    (execute_member_proposal env bank applicant tribute shares w).1.store = w.store
    ∧ (execute_member_proposal env bank applicant tribute shares w).1.events = w.events := by
  unfold execute_member_proposal
  rcases hp : doTransfer env applicant (bank_account_id bank.id) tribute w with ⟨w1, r⟩
  have hf := doTransfer_frame env applicant (bank_account_id bank.id) tribute w
  rw [hp] at hf
  cases r with
  | error e => simpa using ⟨hf.1, hf.2.2⟩
  | ok u =>
      have hg := doIssue_frame env bank.org applicant shares w1
      simp only [hp]
      exact ⟨hg.1.trans hf.1, hg.2.2.trans hf.2.2⟩

theorem trigger_spend_shape (env : Env) (caller : AccountId) (bid sid : Nat) (w : World) :
    ∃ sps, (trigger_vote_on_spend_proposal env caller bid sid w).1.store
      = { w.store with spendProps := sps } := by
  unfold trigger_vote_on_spend_proposal
  repeat' split
  all_goals exact ⟨_, rfl⟩

theorem member_triggers_vote_spend_shape (env : Env) (caller : AccountId)
    (bid sid : Nat) (w : World) :
    ∃ sps, (member_triggers_vote_on_spend_proposal env caller bid sid w).1.store
      = { w.store with spendProps := sps } := by
  obtain ⟨sps, hs⟩ := trigger_spend_shape env caller bid sid w
  unfold member_triggers_vote_on_spend_proposal
  rcases hr : trigger_vote_on_spend_proposal env caller bid sid w with ⟨w1, r⟩
  rw [hr] at hs
  cases r <;> exact ⟨sps, hs⟩

theorem sudo_spend_shape (env : Env) (caller : AccountId) (bid sid : Nat) (w : World) :
    ∃ sps, (sudo_approve_spend_proposal env caller bid sid w).1.store
      = { w.store with spendProps := sps } := by
  cases hb : alookup w.store.bankStores bid with
  | none =>
      simp only [sudo_approve_spend_proposal, hb]
      exact ⟨_, rfl⟩
  | some bank =>
      by_cases hc : bank.is_controller caller = true
      · cases hsp : alookup w.store.spendProps (bid, sid) with
        | none =>
            simp only [sudo_approve_spend_proposal, hb, hc, hsp, if_true]
            exact ⟨_, rfl⟩
        | some sp =>
            rcases hT : doTransfer env (bank_account_id bid) sp.dest sp.amount w
              with ⟨w2, r⟩
            have hf := (doTransfer_frame env (bank_account_id bid) sp.dest sp.amount w).1
            rw [hT] at hf
            cases hst : sp.state with
            | WaitingForApproval =>
                simp only [sudo_approve_spend_proposal, hb, hc, hsp, hst, hT, if_true]
                rw [hf]
                exact ⟨_, rfl⟩
            | Voting v =>
                simp only [sudo_approve_spend_proposal, hb, hc, hsp, hst, hT, if_true]
                rw [hf]
                exact ⟨_, rfl⟩
            | ApprovedAndExecuted =>
                simp only [sudo_approve_spend_proposal, hb, hc, hsp, hst, if_true]
                exact ⟨_, rfl⟩
            | ApprovedButNotExecuted =>
                simp only [sudo_approve_spend_proposal, hb, hc, hsp, hst, if_true]
                exact ⟨_, rfl⟩
      · simp only [sudo_approve_spend_proposal, hb, if_neg hc]
        exact ⟨_, rfl⟩

theorem member_sudo_shape (env : Env) (caller : AccountId) (bid sid : Nat) (w : World) :
    ∃ sps, (member_sudo_approves_spend_proposal env caller bid sid w).1.store
      = { w.store with spendProps := sps } := by
  obtain ⟨sps, hs⟩ := sudo_spend_shape env caller bid sid w
  unfold member_sudo_approves_spend_proposal
  rcases hr : sudo_approve_spend_proposal env caller bid sid w with ⟨w1, r⟩
  rw [hr] at hs
  cases r <;> exact ⟨sps, hs⟩

theorem poll_spend_shape (env : Env) (bid sid : Nat) (w : World) :
    ∃ sps, (poll_spend_proposal env bid sid w).1.store
      = { w.store with spendProps := sps }
      ∧ (poll_spend_proposal env bid sid w).1.events = w.events := by
  cases hb : alookup w.store.bankStores bid with
  | none =>
      simp only [poll_spend_proposal, hb]
      exact ⟨_, rfl, trivial⟩
  | some bank =>
      cases hsp : alookup w.store.spendProps (bid, sid) with
      | none =>
          simp only [poll_spend_proposal, hb, hsp]
          exact ⟨_, rfl, trivial⟩
      | some sp =>
          cases hst : sp.state with
          | WaitingForApproval =>
              simp only [poll_spend_proposal, hb, hsp, hst]
              exact ⟨_, rfl, trivial⟩
          | ApprovedAndExecuted =>
              simp only [poll_spend_proposal, hb, hsp, hst]
              exact ⟨_, rfl, trivial⟩
          | ApprovedButNotExecuted =>
              simp only [poll_spend_proposal, hb, hsp, hst]
              exact ⟨_, rfl, trivial⟩
          | Voting v =>
              cases ho : env.voteOutcome v with
              | none =>
                  simp only [poll_spend_proposal, hb, hsp, hst, ho]
                  exact ⟨_, rfl, trivial⟩
              | some o =>
                  by_cases happ : o = VoteOutcome.Approved
                  · rcases hT : doTransfer env (bank_account_id bid) sp.dest sp.amount w
                      with ⟨w2, r⟩
                    have hf := doTransfer_frame env (bank_account_id bid) sp.dest sp.amount w
                    rw [hT] at hf
                    simp only [poll_spend_proposal, hb, hsp, hst, ho, happ, if_true, hT]
                    rw [hf.1]
                    exact ⟨_, rfl, hf.2.2⟩
                  · simp only [poll_spend_proposal, hb, hsp, hst, ho, if_neg happ]
                    exact ⟨_, rfl, trivial⟩

theorem propose_spend_shape (env : Env) (caller : AccountId)
    (bid amount : Nat) (dest : AccountId) (w : World) :
    ∃ sn sps, (propose_spend env caller bid amount dest w).1.store
      = { w.store with spendNonceMap := sn, spendProps := sps } := by
  unfold propose_spend
  repeat' split
  all_goals exact ⟨_, _, rfl⟩

theorem member_proposes_spend_shape (env : Env) (caller : AccountId)
    (bid amount : Nat) (dest : AccountId) (w : World) :
    ∃ sn sps, (member_proposes_spend env caller bid amount dest w).1.store
      = { w.store with spendNonceMap := sn, spendProps := sps } := by
  obtain ⟨sn, sps, hs⟩ := propose_spend_shape env caller bid amount dest w
  unfold member_proposes_spend
  rcases hr : propose_spend env caller bid amount dest w with ⟨w1, r⟩
  rw [hr] at hs
  cases r <;> exact ⟨sn, sps, hs⟩

theorem propose_membership_shape (env : Env) (caller : AccountId)
    (bid tribute shares : Nat) (applicant : AccountId) (w : World) :
    ∃ pn mps, (propose_membership env caller bid tribute shares applicant w).1.store
      = { w.store with proposalNonceMap := pn, memberProps := mps } := by
  unfold propose_membership
  repeat' split
  all_goals exact ⟨_, _, rfl⟩

theorem member_proposes_member_shape (env : Env) (caller : AccountId)
    (bid tribute shares : Nat) (applicant : AccountId) (w : World) :
    ∃ pn mps, (member_proposes_member env caller bid tribute shares applicant w).1.store
      = { w.store with proposalNonceMap := pn, memberProps := mps } := by
  obtain ⟨pn, mps, hs⟩ := propose_membership_shape env caller bid tribute shares applicant w
  unfold member_proposes_member
  rcases hr : propose_membership env caller bid tribute shares applicant w with ⟨w1, r⟩
  rw [hr] at hs
  cases r <;> exact ⟨pn, mps, hs⟩

theorem trigger_member_shape (env : Env) (caller : AccountId) (bid pid : Nat) (w : World) :
    ∃ mps, (trigger_vote_on_member_proposal env caller bid pid w).1.store
      = { w.store with memberProps := mps } := by
  unfold trigger_vote_on_member_proposal
  repeat' split
  all_goals exact ⟨_, rfl⟩

theorem member_triggers_vote_member_shape (env : Env) (caller : AccountId)
    (bid pid : Nat) (w : World) :
    ∃ mps, (member_triggers_vote_on_member_proposal env caller bid pid w).1.store
      = { w.store with memberProps := mps } := by
  obtain ⟨mps, hs⟩ := trigger_member_shape env caller bid pid w
  unfold member_triggers_vote_on_member_proposal
  rcases hr : trigger_vote_on_member_proposal env caller bid pid w with ⟨w1, r⟩
  rw [hr] at hs
  cases r <;> exact ⟨mps, hs⟩

theorem poll_member_shape (env : Env) (bid pid : Nat) (w : World) :
    ∃ mps, (poll_membership_proposal env bid pid w).1.store
      = { w.store with memberProps := mps }
      ∧ (poll_membership_proposal env bid pid w).1.events = w.events := by
  cases hb : alookup w.store.bankStores bid with
  | none =>
      simp only [poll_membership_proposal, hb]
      exact ⟨_, rfl, trivial⟩
  | some bank =>
      cases hsp : alookup w.store.memberProps (bid, pid) with
      | none =>
          simp only [poll_membership_proposal, hb, hsp]
          exact ⟨_, rfl, trivial⟩
      | some mp =>
          cases hst : mp.state with
          | WaitingForApproval =>
              simp only [poll_membership_proposal, hb, hsp, hst]
              exact ⟨_, rfl, trivial⟩
          | ApprovedAndExecuted =>
              simp only [poll_membership_proposal, hb, hsp, hst]
              exact ⟨_, rfl, trivial⟩
          | ApprovedButNotExecuted =>
              simp only [poll_membership_proposal, hb, hsp, hst]
              exact ⟨_, rfl, trivial⟩
          | Voting v =>
              cases ho : env.voteOutcome v with
              | none =>
                  simp only [poll_membership_proposal, hb, hsp, hst, ho]
                  exact ⟨_, rfl, trivial⟩
              | some o =>
                  by_cases happ : o = VoteOutcome.Approved
                  · rcases hT : execute_member_proposal env bank mp.applicant
                        mp.tribute mp.shares_requested w with ⟨w2, r⟩
                    have hf := execute_member_frame env bank mp.applicant
                      mp.tribute mp.shares_requested w
                    rw [hT] at hf
                    simp only [poll_membership_proposal, hb, hsp, hst, ho, happ,
                      if_true, hT]
                    rw [hf.1]
                    exact ⟨_, rfl, hf.2⟩
                  · simp only [poll_membership_proposal, hb, hsp, hst, ho, if_neg happ]
                    exact ⟨_, rfl, trivial⟩

theorem sweep_spend_shape (env : Env) : ∀ (keys : List (Nat × Nat)) (w : World),
    ∃ sps, (sweep_spend env keys w).store = { w.store with spendProps := sps } := by
  intro keys
  induction keys with
  | nil => intro w; exact ⟨_, rfl⟩
  | cons k rest ih =>
      intro w
      obtain ⟨bid, sid⟩ := k
      rcases hp : poll_spend_proposal env bid sid w with ⟨w1, r⟩
      obtain ⟨sps1, hs1, _⟩ := poll_spend_shape env bid sid w
      rw [hp] at hs1
      cases r with
      | error e =>
          simp only [sweep_spend, hp]
          exact ⟨_, hs1⟩
      | ok st =>
          simp only [sweep_spend, hp]
          obtain ⟨sps2, hs2⟩ :=
            ih { w1 with events := w1.events ++ [.SpendProposalPolled bid sid st] }
          refine ⟨sps2, ?_⟩
          rw [hs2]
          exact congrArg (fun s => { s with spendProps := sps2 }) hs1

theorem sweep_member_shape (env : Env) : ∀ (keys : List (Nat × Nat)) (w : World),
    ∃ mps, (sweep_member env keys w).store = { w.store with memberProps := mps } := by
  intro keys
  induction keys with
  | nil => intro w; exact ⟨_, rfl⟩
  | cons k rest ih =>
      intro w
      obtain ⟨bid, pid⟩ := k
      rcases hp : poll_membership_proposal env bid pid w with ⟨w1, r⟩
      obtain ⟨mps1, hs1, _⟩ := poll_member_shape env bid pid w
      rw [hp] at hs1
      cases r with
      | error e =>
          simp only [sweep_member, hp]
          exact ⟨_, hs1⟩
      | ok st =>
          simp only [sweep_member, hp]
          obtain ⟨mps2, hs2⟩ :=
            ih { w1 with events := w1.events ++ [.MemberProposalPolled bid pid st] }
          refine ⟨mps2, ?_⟩
          rw [hs2]
          exact congrArg (fun s => { s with memberProps := mps2 }) hs1

theorem on_finalize_shape (env : Env) (n : Nat) (w : World) :
    ∃ sps mps, (on_finalize env n w).store
      = { w.store with spendProps := sps, memberProps := mps } := by
  unfold on_finalize
  by_cases h1 : n % w.store.spendPollFrequency = 0
  · obtain ⟨sps, hs⟩ := sweep_spend_shape env (akeys w.store.spendProps) w
    have hfreq : (sweep_spend env (akeys w.store.spendProps) w).store.memberPollFrequency
        = w.store.memberPollFrequency := by rw [hs]
    simp only [h1, if_true, hfreq]
    by_cases h2 : n % w.store.memberPollFrequency = 0
    · obtain ⟨mps, hm⟩ := sweep_member_shape env
        (akeys (sweep_spend env (akeys w.store.spendProps) w).store.memberProps)
        (sweep_spend env (akeys w.store.spendProps) w)
      simp only [h2, if_true]
      refine ⟨sps, mps, ?_⟩
      rw [hm]
      exact congrArg (fun s => { s with memberProps := mps }) hs
    · simp only [h2, if_false]
      exact ⟨sps, _, hs⟩
  · simp only [if_neg h1]
    by_cases h2 : n % w.store.memberPollFrequency = 0
    · obtain ⟨mps, hm⟩ := sweep_member_shape env (akeys w.store.memberProps) w
      simp only [h2, if_true]
      exact ⟨_, mps, hm⟩
    · simp only [if_neg h2]
      exact ⟨_, _, rfl⟩

theorem alookup_ainsert_isSome {κ β : Type} [DecidableEq κ]
    (m : List (κ × β)) (k k' : κ) (v : β) :
    (alookup (ainsert m k v) k').isSome ↔ k' = k ∨ (alookup m k').isSome := by
  by_cases h : k' = k
  · subst h
    simp [alookup_ainsert_self]
  · rw [alookup_ainsert_ne m k k' v h]
    simp [h]

theorem aremove_sublist {κ β : Type} [DecidableEq κ] (m : List (κ × β)) (k : κ) :
    List.Sublist (aremove m k) m := by
  induction m with
  | nil => simp [aremove]
  | cons hd tl ih =>
      obtain ⟨k₀, v₀⟩ := hd
      by_cases h₀ : k₀ = k
      · simp only [aremove, if_pos h₀]
        exact List.sublist_cons_self _ _
      · simp only [aremove, if_neg h₀]
        exact List.Sublist.cons₂ _ ih

theorem alookup_eq_of_mem_nodup {κ β : Type} [DecidableEq κ]
    {m : List (κ × β)} {k : κ} {v : β}
    (hnd : (akeys m).Nodup) (hmem : (k, v) ∈ m) : alookup m k = some v := by
  induction m with
  | nil => simp at hmem
  | cons hd tl ih =>
      obtain ⟨k₀, v₀⟩ := hd
      rw [akeys_cons, List.nodup_cons] at hnd
      rcases List.mem_cons.1 hmem with h | h
      · obtain ⟨hk, hv⟩ := Prod.mk.injEq .. ▸ h
        cases h
        simp [alookup]
      · have hk : k₀ ≠ k := by
          intro he
          exact hnd.1 (he ▸ mem_akeys.2 ⟨v, h⟩)
        simp [alookup, hk, ih hnd.2 h]

theorem two_le_length_of_mem_ne {α : Type} {l : List α} {a b : α}
    (ha : a ∈ l) (hb : b ∈ l) (hab : a ≠ b) : 2 ≤ l.length := by
  match l with
  | [] => simp at ha
  | [x] =>
      simp at ha hb
      exact absurd (ha.trans hb.symm) hab
  | x :: y :: rest => simp [Nat.succ_le_succ, Nat.le_add_left]

/-- The storage invariant maintained by every operation: the global bank
counter equals the number of registered banks, bank and registrar keys are
unique, an org is in the registrar exactly when it owns a bank, and each
org owns at most one bank. -/
def WInv (w : World) : Prop :=
  w.store.totalBankCount = w.store.bankStores.length
  ∧ (akeys w.store.bankStores).Nodup
  ∧ (akeys w.store.orgBankRegistrar).Nodup
  ∧ (∀ o, (alookup w.store.orgBankRegistrar o).isSome ↔
      ∃ e ∈ w.store.bankStores, e.2.org = o)
  ∧ ∀ o, (w.store.bankStores.filter (fun e => e.2.org = o)).length ≤ 1

theorem winv_of_store_projs {w w' : World}
    (hc : w'.store.totalBankCount = w.store.totalBankCount)
    (hb : w'.store.bankStores = w.store.bankStores)
    (hr : w'.store.orgBankRegistrar = w.store.orgBankRegistrar)
    (h : WInv w) : WInv w' := by
  obtain ⟨h1, h2, h3, h4, h5⟩ := h
  refine ⟨?_, ?_, ?_, ?_, ?_⟩
  · rw [hc, hb, h1]
  · rw [hb]; exact h2
  · rw [hr]; exact h3
  · intro o; rw [hr, hb]; exact h4 o
  · intro o; rw [hb]; exact h5 o

theorem open_bank_success_char (env : Env) (opener : AccountId) (org dep : Nat)
    (ctrl : Option AccountId) (w : World) (w1 : World) (id : Nat)
    (h : open_bank_account env opener org dep ctrl w = (w1, .ok id)) :
    id = (generate_bank_uid w).2
    ∧ w1.store.bankStores
        = ainsert w.store.bankStores id ⟨id, org, ctrl⟩
    ∧ w1.store.totalBankCount = w.store.totalBankCount + 1
    ∧ w1.store.orgBankRegistrar = w.store.orgBankRegistrar
    ∧ w1.store.spendProps = w.store.spendProps
    ∧ w1.store.memberProps = w.store.memberProps := by
  by_cases hdep : dep < env.minDeposit
  · simp [open_bank_account, hdep] at h
  · rcases hT : doTransfer env opener (bank_account_id (generate_bank_uid w).2) dep
        (generate_bank_uid w).1 with ⟨w2, r⟩
    have hf := (doTransfer_frame env opener (bank_account_id (generate_bank_uid w).2) dep
      (generate_bank_uid w).1).1
    rw [hT] at hf
    simp only [open_bank_account, if_neg hdep, hT] at h
    cases r with
    | error e => simp at h
    | ok u =>
        simp only [Prod.mk.injEq] at h
        obtain ⟨hw, hid⟩ := h
        have hid' : id = (generate_bank_uid w).2 := by
          cases hid
          rfl
        subst hw
        subst hid'
        have hf' : w2.store = (generate_bank_uid w).1.store := hf
        refine ⟨rfl, ?_, ?_, ?_, ?_, ?_⟩ <;> rw [hf'] <;> rfl

theorem open_bank_fail_char (env : Env) (opener : AccountId) (org dep : Nat)
    (ctrl : Option AccountId) (w : World) (w1 : World) (e : Err)
    (h : open_bank_account env opener org dep ctrl w = (w1, .error e)) :
    w1.store.bankStores = w.store.bankStores
    ∧ w1.store.totalBankCount = w.store.totalBankCount
    ∧ w1.store.orgBankRegistrar = w.store.orgBankRegistrar
    ∧ w1.store.spendProps = w.store.spendProps
    ∧ w1.store.memberProps = w.store.memberProps := by
  by_cases hdep : dep < env.minDeposit
  · simp only [open_bank_account, if_pos hdep, Prod.mk.injEq] at h
    obtain ⟨hw, _⟩ := h
    subst hw
    exact ⟨rfl, rfl, rfl, rfl, rfl⟩
  · rcases hT : doTransfer env opener (bank_account_id (generate_bank_uid w).2) dep
        (generate_bank_uid w).1 with ⟨w2, r⟩
    have hf := (doTransfer_frame env opener (bank_account_id (generate_bank_uid w).2) dep
      (generate_bank_uid w).1).1
    rw [hT] at hf
    simp only [open_bank_account, if_neg hdep, hT] at h
    cases r with
    | ok u => simp at h
    | error e' =>
        simp only [Prod.mk.injEq] at h
        obtain ⟨hw, _⟩ := h
        subst hw
        have hf' : w2.store = (generate_bank_uid w).1.store := hf
        refine ⟨?_, ?_, ?_, ?_, ?_⟩ <;> rw [hf'] <;> rfl

theorem summon_success_char (env : Env) (caller : AccountId) (org dep : Nat)
    (ctrl : Option AccountId) (w : World)
    (h : (summon_moloch env caller org dep ctrl w).2 = .ok ()) :
    alookup w.store.orgBankRegistrar org = none
    ∧ (summon_moloch env caller org dep ctrl w).1.store.bankStores
        = ainsert w.store.bankStores (generate_bank_uid w).2
            ⟨(generate_bank_uid w).2, org, ctrl⟩
    ∧ (summon_moloch env caller org dep ctrl w).1.store.totalBankCount
        = w.store.totalBankCount + 1
    ∧ (summon_moloch env caller org dep ctrl w).1.store.orgBankRegistrar
        = ainsert w.store.orgBankRegistrar org () := by
  by_cases hreg : (alookup w.store.orgBankRegistrar org).isSome
  · simp [summon_moloch, hreg] at h
  · have hregn : alookup w.store.orgBankRegistrar org = none :=
      Option.not_isSome_iff_eq_none.1 hreg
    by_cases hm : env.isMember org caller = true
    · rcases ho : open_bank_account env caller org dep ctrl w with ⟨w1, r⟩
      cases r with
      | error e =>
          simp [summon_moloch, hreg, hm, ho] at h
      | ok bankId =>
          obtain ⟨hid, hbs, hct, hrg, _, _⟩ :=
            open_bank_success_char env caller org dep ctrl w w1 bankId ho
          subst hid
          simp only [summon_moloch, hreg, Bool.false_eq_true, if_false, hm,
            if_true, ho]
          exact ⟨hregn, hbs, hct, by rw [hrg]⟩
    · simp [summon_moloch, hreg, hm] at h

theorem summon_fail_char (env : Env) (caller : AccountId) (org dep : Nat)
    (ctrl : Option AccountId) (w : World) (e : Err)
    (h : (summon_moloch env caller org dep ctrl w).2 = .error e) :
    (summon_moloch env caller org dep ctrl w).1.store.bankStores = w.store.bankStores
    ∧ (summon_moloch env caller org dep ctrl w).1.store.totalBankCount
        = w.store.totalBankCount
    ∧ (summon_moloch env caller org dep ctrl w).1.store.orgBankRegistrar
        = w.store.orgBankRegistrar := by
  by_cases hreg : (alookup w.store.orgBankRegistrar org).isSome
  · simp [summon_moloch, hreg]
  · by_cases hm : env.isMember org caller = true
    · rcases ho : open_bank_account env caller org dep ctrl w with ⟨w1, r⟩
      cases r with
      | error e' =>
          obtain ⟨hbs, hct, hrg, _, _⟩ :=
            open_bank_fail_char env caller org dep ctrl w w1 e' ho
          simp only [summon_moloch, hreg, Bool.false_eq_true, if_false, hm,
            if_true, ho]
          exact ⟨hbs, hct, hrg⟩
      | ok bankId =>
          simp [summon_moloch, hreg, hm, ho] at h
    · simp [summon_moloch, hreg, hm]

theorem winv_summon (env : Env) (caller : AccountId) (org dep : Nat)
    (ctrl : Option AccountId) (w : World) (h : WInv w) :
    WInv (summon_moloch env caller org dep ctrl w).1 := by
  obtain ⟨h1, h2, h3, h4, h5⟩ := h
  rcases hr : (summon_moloch env caller org dep ctrl w).2 with e | u
  · obtain ⟨hbs, hct, hrg⟩ := summon_fail_char env caller org dep ctrl w e hr
    exact winv_of_store_projs hct hbs hrg ⟨h1, h2, h3, h4, h5⟩
  · obtain ⟨hregn, hbs, hct, hrg⟩ := summon_success_char env caller org dep ctrl w
      (by cases u; exact hr)
    have hfresh := (generate_bank_uid_spec w).2
    have happ := ainsert_of_not_mem w.store.bankStores (generate_bank_uid w).2
      (⟨(generate_bank_uid w).2, org, ctrl⟩ : BankState) hfresh
    have hnoorg : ∀ e ∈ w.store.bankStores, ¬ e.2.org = org := by
      intro e he ho
      have : (alookup w.store.orgBankRegistrar org).isSome := (h4 org).2 ⟨e, he, ho⟩
      simp [hregn] at this
    refine ⟨?_, ?_, ?_, ?_, ?_⟩
    · rw [hct, hbs, length_ainsert_of_none _ hfresh, h1]
    · rw [hbs]
      exact akeys_nodup_ainsert _ h2
    · rw [hrg]
      exact akeys_nodup_ainsert _ h3
    · intro o
      rw [hrg, hbs, happ]
      rw [alookup_ainsert_isSome]
      constructor
      · rintro (rfl | hs)
        · exact ⟨((generate_bank_uid w).2, ⟨(generate_bank_uid w).2, o, ctrl⟩),
            by simp⟩
        · obtain ⟨e, he, ho⟩ := (h4 o).1 hs
          exact ⟨e, by simp [he], ho⟩
      · rintro ⟨e, he, ho⟩
        rcases List.mem_append.1 he with he | he
        · exact Or.inr ((h4 o).2 ⟨e, he, ho⟩)
        · simp at he
          subst he
          exact Or.inl ho.symm
    · intro o
      rw [hbs, happ, List.filter_append]
      by_cases ho : org = o
      · subst ho
        have hnil : w.store.bankStores.filter (fun e => e.2.org = org) = [] :=
          List.filter_eq_nil_iff.2 (by
            intro e he
            simp only [decide_eq_true_eq]
            exact hnoorg e he)
        rw [hnil]
        simp
      · have hnil : List.filter (fun e => e.2.org = o)
            [((generate_bank_uid w).2, (⟨(generate_bank_uid w).2, org, ctrl⟩ : BankState))]
            = [] := by
          simp [ho]
        rw [hnil, List.append_nil]
        exact h5 o

theorem close_success_char (env : Env) (closer : AccountId) (bid : Nat) (w : World)
    (bank : BankState) (hb : alookup w.store.bankStores bid = some bank)
    (h : (close_org_bank_account env closer bid w).2 = .ok ()) :
    (close_org_bank_account env closer bid w).1.store.bankStores
        = aremove w.store.bankStores bid
    ∧ (close_org_bank_account env closer bid w).1.store.totalBankCount
        = w.store.totalBankCount - 1
    ∧ (close_org_bank_account env closer bid w).1.store.orgBankRegistrar
        = aremove w.store.orgBankRegistrar bank.org := by
  by_cases hc : bank.is_controller closer = true
  · by_cases hd : env.donateOk (bank_account_id bid) bank.org closer
        (w.getBal (bank_account_id bid)) = true
    · simp only [close_org_bank_account, hb, hc, if_true, hd]
      refine ⟨?_, ?_, ?_⟩ <;> trivial
    · simp [close_org_bank_account, hb, hc, hd] at h
  · simp [close_org_bank_account, hb, hc] at h

theorem close_fail_char (env : Env) (closer : AccountId) (bid : Nat) (w : World)
    (e : Err) (h : (close_org_bank_account env closer bid w).2 = .error e) :
    (close_org_bank_account env closer bid w).1.store.bankStores = w.store.bankStores
    ∧ (close_org_bank_account env closer bid w).1.store.totalBankCount
        = w.store.totalBankCount
    ∧ (close_org_bank_account env closer bid w).1.store.orgBankRegistrar
        = w.store.orgBankRegistrar := by
  cases hb : alookup w.store.bankStores bid with
  | none =>
      simp only [close_org_bank_account, hb]
      refine ⟨?_, ?_, ?_⟩ <;> trivial
  | some bank =>
      by_cases hc : bank.is_controller closer = true
      · by_cases hd : env.donateOk (bank_account_id bid) bank.org closer
            (w.getBal (bank_account_id bid)) = true
        · simp [close_org_bank_account, hb, hc, hd] at h
        · simp only [close_org_bank_account, hb, hc, if_true, if_neg hd]
          refine ⟨?_, ?_, ?_⟩ <;> trivial
      · simp only [close_org_bank_account, hb, if_neg hc]
        refine ⟨?_, ?_, ?_⟩ <;> trivial

theorem close_props_frame (env : Env) (closer : AccountId) (bid : Nat) (w : World) :
    (close_org_bank_account env closer bid w).1.store.spendProps = w.store.spendProps
    ∧ (close_org_bank_account env closer bid w).1.store.memberProps
        = w.store.memberProps := by
  cases hb : alookup w.store.bankStores bid with
  | none =>
      simp only [close_org_bank_account, hb]
      refine ⟨?_, ?_⟩ <;> trivial
  | some bank =>
      by_cases hc : bank.is_controller closer = true
      · by_cases hd : env.donateOk (bank_account_id bid) bank.org closer
            (w.getBal (bank_account_id bid)) = true
        · simp only [close_org_bank_account, hb, hc, if_true, hd]
          refine ⟨?_, ?_⟩ <;> trivial
        · simp only [close_org_bank_account, hb, hc, if_true, if_neg hd]
          refine ⟨?_, ?_⟩ <;> trivial
      · simp only [close_org_bank_account, hb, if_neg hc]
        refine ⟨?_, ?_⟩ <;> trivial

theorem winv_close (env : Env) (closer : AccountId) (bid : Nat) (w : World)
    (h : WInv w) : WInv (close_org_bank_account env closer bid w).1 := by
  obtain ⟨h1, h2, h3, h4, h5⟩ := h
  rcases hr : (close_org_bank_account env closer bid w).2 with e | u
  · obtain ⟨hbs, hct, hrg⟩ := close_fail_char env closer bid w e hr
    exact winv_of_store_projs hct hbs hrg ⟨h1, h2, h3, h4, h5⟩
  · cases hb : alookup w.store.bankStores bid with
    | none => simp [close_org_bank_account, hb] at hr
    | some bank =>
        obtain ⟨hbs, hct, hrg⟩ := close_success_char env closer bid w bank hb
          (by cases u; exact hr)
        have hmem : (bid, bank) ∈ w.store.bankStores := alookup_mem hb
        refine ⟨?_, ?_, ?_, ?_, ?_⟩
        · rw [hct, hbs, h1]
          have := length_aremove (m := w.store.bankStores) (k := bid) (by simp [hb])
          omega
        · rw [hbs]
          exact akeys_nodup_aremove h2
        · rw [hrg]
          exact akeys_nodup_aremove h3
        · intro o
          rw [hrg, hbs]
          by_cases ho : o = bank.org
          · subst ho
            rw [alookup_aremove_self h3]
            simp only [Option.isSome_none, Bool.false_eq_true, false_iff]
            rintro ⟨e, he, heo⟩
            have hein : e ∈ w.store.bankStores := mem_of_mem_aremove he
            have hene : e ≠ (bid, bank) := by
              rintro rfl
              have h₁ := alookup_isSome_of_mem he
              rw [alookup_aremove_self h2] at h₁
              simp at h₁
            have he₁ : e ∈ w.store.bankStores.filter (fun e => e.2.org = bank.org) :=
              List.mem_filter.2 ⟨hein, by simp [heo]⟩
            have he₂ : (bid, bank) ∈
                w.store.bankStores.filter (fun e => e.2.org = bank.org) :=
              List.mem_filter.2 ⟨hmem, by simp⟩
            have := two_le_length_of_mem_ne he₁ he₂ hene
            have := h5 bank.org
            omega
          · rw [alookup_aremove_ne _ _ _ ho, h4 o]
            constructor
            · rintro ⟨e, he, heo⟩
              have he1 : e.1 ≠ bid := by
                intro hke
                have : alookup w.store.bankStores bid = some e.2 := by
                  rw [← hke]
                  exact alookup_eq_of_mem_nodup h2 (by simpa using he)
                rw [hb] at this
                cases this
                exact ho (by rw [← heo])
              exact ⟨e, mem_aremove_of_ne_key he he1, heo⟩
            · rintro ⟨e, he, heo⟩
              exact ⟨e, mem_of_mem_aremove he, heo⟩
        · intro o
          rw [hbs]
          exact Nat.le_trans
            (((aremove_sublist w.store.bankStores bid).filter _).length_le) (h5 o)

theorem winv_step (env : Env) (op : Op) (w : World) (h : WInv w) :
    WInv (applyOp env op w) := by
  cases op with
  | summon caller org deposit controller =>
      simp only [applyOp, applyOpE]
      exact winv_summon env caller org deposit controller w h
  | proposeSpend caller bank amount dest =>
      simp only [applyOp, applyOpE]
      obtain ⟨sn, sps, hs⟩ := member_proposes_spend_shape env caller bank amount dest w
      exact winv_of_store_projs (by rw [hs]) (by rw [hs]) (by rw [hs]) h
  | triggerVoteSpend caller bank spend =>
      simp only [applyOp, applyOpE]
      obtain ⟨sps, hs⟩ := member_triggers_vote_spend_shape env caller bank spend w
      exact winv_of_store_projs (by rw [hs]) (by rw [hs]) (by rw [hs]) h
  | sudoApproveSpend caller bank spend =>
      simp only [applyOp, applyOpE]
      obtain ⟨sps, hs⟩ := member_sudo_shape env caller bank spend w
      exact winv_of_store_projs (by rw [hs]) (by rw [hs]) (by rw [hs]) h
  | pollSpend bank spend =>
      simp only [applyOp, applyOpE]
      obtain ⟨sps, hs, _⟩ := poll_spend_shape env bank spend w
      exact winv_of_store_projs (by rw [hs]) (by rw [hs]) (by rw [hs]) h
  | proposeMember caller bank tribute shares applicant =>
      simp only [applyOp, applyOpE]
      obtain ⟨pn, mps, hs⟩ :=
        member_proposes_member_shape env caller bank tribute shares applicant w
      exact winv_of_store_projs (by rw [hs]) (by rw [hs]) (by rw [hs]) h
  | triggerVoteMember caller bank proposal =>
      simp only [applyOp, applyOpE]
      obtain ⟨mps, hs⟩ := member_triggers_vote_member_shape env caller bank proposal w
      exact winv_of_store_projs (by rw [hs]) (by rw [hs]) (by rw [hs]) h
  | pollMember bank proposal =>
      simp only [applyOp, applyOpE]
      obtain ⟨mps, hs, _⟩ := poll_member_shape env bank proposal w
      exact winv_of_store_projs (by rw [hs]) (by rw [hs]) (by rw [hs]) h
  | closeBank closer bank =>
      simp only [applyOp, applyOpE]
      exact winv_close env closer bank w h
  | finalize n =>
      simp only [applyOp, applyOpE]
      obtain ⟨sps, mps, hs⟩ := on_finalize_shape env n w
      exact winv_of_store_projs (by rw [hs]) (by rw [hs]) (by rw [hs]) h

theorem winv_init (f₁ f₂ : Nat) (bal : List (AccountId × Nat))
    (sh : List ((Nat × AccountId) × Nat)) : WInv (initWorld f₁ f₂ bal sh) := by
  refine ⟨rfl, ?_, ?_, ?_, ?_⟩ <;> simp [initWorld, akeys, alookup]

theorem reachable_winv (w : World) (h : Reachable w) : WInv w := by
  induction h with
  | init f₁ f₂ bal sh => exact winv_init f₁ f₂ bal sh
  | step env op hw ih => exact winv_step env op _ ih

/-- Claim C10: in every reachable state the global counter
`TotalBankCount` equals the number of banks stored in `BankStores`
(every operation preserves the equality), and consequently whenever a
bank exists (the precondition for the decrement in close) the counter is
at least one, so the decrement never underflows. -/
theorem bank_count_matches_stores (w : World) (h : Reachable w) :
    w.store.totalBankCount = w.store.bankStores.length
    ∧ ∀ bid, (alookup w.store.bankStores bid).isSome →
        1 ≤ w.store.totalBankCount := by
  have hw := reachable_winv w h
  refine ⟨hw.1, ?_⟩
  intro bid hb
  obtain ⟨v, hv⟩ := Option.isSome_iff_exists.1 hb
  have hmem := alookup_mem hv
  have hlen : 1 ≤ w.store.bankStores.length := by
    cases hws : w.store.bankStores with
    | nil => rw [hws] at hmem; simp at hmem
    | cons a l => simp
  have h1 := hw.1
  omega

/-- Witness for C10 at the reachable state obtained by one successful
summon from genesis. -/
theorem bank_count_matches_stores_witness :
    (applyOp envW (.summon (.user 0) 1 20 (some (.user 0)))
        (initWorld 5 5 [] [])).store.totalBankCount
      = (applyOp envW (.summon (.user 0) 1 20 (some (.user 0)))
        (initWorld 5 5 [] [])).store.bankStores.length
    ∧ ∀ bid, (alookup (applyOp envW (.summon (.user 0) 1 20 (some (.user 0)))
        (initWorld 5 5 [] [])).store.bankStores bid).isSome →
        1 ≤ (applyOp envW (.summon (.user 0) 1 20 (some (.user 0)))
        (initWorld 5 5 [] [])).store.totalBankCount :=
  bank_count_matches_stores _
    (Reachable.step envW (.summon (.user 0) 1 20 (some (.user 0)))
      (Reachable.init 5 5 [] []))

theorem summon_blocked (env : Env) (caller : AccountId) (org dep : Nat)
    (ctrl : Option AccountId) (w : World)
    (h : (alookup w.store.orgBankRegistrar org).isSome = true) :
    summon_moloch env caller org dep ctrl w
      = (w, .error .LimitOfOneMolochPerOrg) := by
  simp [summon_moloch, h]

/-- Claim C5: from any reachable state, after one successful
`summon_moloch` for org O there is exactly one treasury registered for O;
a second `summon_moloch` for O fails with the duplicate-treasury error
`LimitOfOneMolochPerOrg` leaving the state unchanged; and the only
operation that can release the one-treasury slot of O is a
`close_org_bank_account` call. -/
theorem one_treasury_per_org (env : Env) (caller : AccountId) (org dep : Nat)
    (ctrl : Option AccountId) (w : World) (hreach : Reachable w)
    (hok : (summon_moloch env caller org dep ctrl w).2 = .ok ()) :
    ((summon_moloch env caller org dep ctrl w).1.store.bankStores.filter
        (fun e => e.2.org = org)).length = 1
    ∧ (∀ env₂ caller₂ dep₂ ctrl₂,
        summon_moloch env₂ caller₂ org dep₂ ctrl₂
            (summon_moloch env caller org dep ctrl w).1
          = ((summon_moloch env caller org dep ctrl w).1,
             .error .LimitOfOneMolochPerOrg))
    ∧ (∀ env₂ op,
        (alookup (applyOp env₂ op
            (summon_moloch env caller org dep ctrl w).1).store.orgBankRegistrar
            org).isSome = false →
        ∃ closer bank, op = .closeBank closer bank) := by
  obtain ⟨h1, h2, h3, h4, h5⟩ := reachable_winv w hreach
  obtain ⟨hregn, hbs, hct, hrg⟩ := summon_success_char env caller org dep ctrl w hok
  have hfresh := (generate_bank_uid_spec w).2
  have happ := ainsert_of_not_mem w.store.bankStores (generate_bank_uid w).2
    (⟨(generate_bank_uid w).2, org, ctrl⟩ : BankState) hfresh
  have hsome : (alookup (summon_moloch env caller org dep ctrl
      w).1.store.orgBankRegistrar org).isSome := by
    rw [hrg, alookup_ainsert_self]
    rfl
  refine ⟨?_, ?_, ?_⟩
  · rw [hbs, happ, List.filter_append]
    have hnil : w.store.bankStores.filter (fun e => e.2.org = org) = [] :=
      List.filter_eq_nil_iff.2 (by
        intro e he
        simp only [decide_eq_true_eq]
        intro ho
        have : (alookup w.store.orgBankRegistrar org).isSome = true :=
          (h4 org).2 ⟨e, he, ho⟩
        simp [hregn] at this)
    rw [hnil]
    simp
  · intro env₂ caller₂ dep₂ ctrl₂
    exact summon_blocked env₂ caller₂ org dep₂ ctrl₂ _ hsome
  · intro env₂ op hnone
    cases op with
    | summon c₂ o₂ d₂ ct₂ =>
        exfalso
        simp only [applyOp, applyOpE] at hnone
        rcases hr₂ : (summon_moloch env₂ c₂ o₂ d₂ ct₂
            (summon_moloch env caller org dep ctrl w).1).2 with e₂ | u₂
        · obtain ⟨_, _, hrg₂⟩ := summon_fail_char env₂ c₂ o₂ d₂ ct₂ _ e₂ hr₂
          rw [hrg₂] at hnone
          rw [hsome] at hnone
          simp at hnone
        · obtain ⟨_, _, _, hrg₂⟩ := summon_success_char env₂ c₂ o₂ d₂ ct₂ _
            (by cases u₂; exact hr₂)
          rw [hrg₂] at hnone
          have := (alookup_ainsert_isSome _ o₂ org ()).2 (Or.inr hsome)
          rw [hnone] at this
          simp at this
    | proposeSpend c₂ b₂ a₂ d₂ =>
        exfalso
        simp only [applyOp, applyOpE] at hnone
        obtain ⟨sn, sps, hs⟩ := member_proposes_spend_shape env₂ c₂ b₂ a₂ d₂ _
        rw [hs] at hnone
        rw [hsome] at hnone
        simp at hnone
    | triggerVoteSpend c₂ b₂ s₂ =>
        exfalso
        simp only [applyOp, applyOpE] at hnone
        obtain ⟨sps, hs⟩ := member_triggers_vote_spend_shape env₂ c₂ b₂ s₂ _
        rw [hs] at hnone
        rw [hsome] at hnone
        simp at hnone
    | sudoApproveSpend c₂ b₂ s₂ =>
        exfalso
        simp only [applyOp, applyOpE] at hnone
        obtain ⟨sps, hs⟩ := member_sudo_shape env₂ c₂ b₂ s₂ _
        rw [hs] at hnone
        rw [hsome] at hnone
        simp at hnone
    | pollSpend b₂ s₂ =>
        exfalso
        simp only [applyOp, applyOpE] at hnone
        obtain ⟨sps, hs, _⟩ := poll_spend_shape env₂ b₂ s₂ _
        rw [hs] at hnone
        rw [hsome] at hnone
        simp at hnone
    | proposeMember c₂ b₂ t₂ sh₂ ap₂ =>
        exfalso
        simp only [applyOp, applyOpE] at hnone
        obtain ⟨pn, mps, hs⟩ := member_proposes_member_shape env₂ c₂ b₂ t₂ sh₂ ap₂ _
        rw [hs] at hnone
        rw [hsome] at hnone
        simp at hnone
    | triggerVoteMember c₂ b₂ p₂ =>
        exfalso
        simp only [applyOp, applyOpE] at hnone
        obtain ⟨mps, hs⟩ := member_triggers_vote_member_shape env₂ c₂ b₂ p₂ _
        rw [hs] at hnone
        rw [hsome] at hnone
        simp at hnone
    | pollMember b₂ p₂ =>
        exfalso
        simp only [applyOp, applyOpE] at hnone
        obtain ⟨mps, hs, _⟩ := poll_member_shape env₂ b₂ p₂ _
        rw [hs] at hnone
        rw [hsome] at hnone
        simp at hnone
    | closeBank closer bank => exact ⟨closer, bank, rfl⟩
    | finalize n =>
        exfalso
        simp only [applyOp, applyOpE] at hnone
        obtain ⟨sps, mps, hs⟩ := on_finalize_shape env₂ n _
        rw [hs] at hnone
        rw [hsome] at hnone
        simp at hnone

/-- Witness for C5: summoning a treasury for org 1 from genesis. -/
theorem one_treasury_per_org_witness :
    ((summon_moloch envW (.user 0) 1 20 (some (.user 0))
        (initWorld 5 5 [] [])).1.store.bankStores.filter
        (fun e => e.2.org = 1)).length = 1
    ∧ (∀ env₂ caller₂ dep₂ ctrl₂,
        summon_moloch env₂ caller₂ 1 dep₂ ctrl₂
            (summon_moloch envW (.user 0) 1 20 (some (.user 0))
              (initWorld 5 5 [] [])).1
          = ((summon_moloch envW (.user 0) 1 20 (some (.user 0))
              (initWorld 5 5 [] [])).1,
             .error .LimitOfOneMolochPerOrg))
    ∧ (∀ env₂ op,
        (alookup (applyOp env₂ op
            (summon_moloch envW (.user 0) 1 20 (some (.user 0))
              (initWorld 5 5 [] [])).1).store.orgBankRegistrar
            1).isSome = false →
        ∃ closer bank, op = .closeBank closer bank) :=
  one_treasury_per_org envW (.user 0) 1 20 (some (.user 0)) (initWorld 5 5 [] [])
    (Reachable.init 5 5 [] []) rfl

/-- Position of a spend state in the forward order
`WaitingForApproval < Voting(_) < terminal`. -/
def spendRank : SpendState → Nat
  | .WaitingForApproval => 0
  | .Voting _ => 1
  | .ApprovedAndExecuted => 2
  | .ApprovedButNotExecuted => 2

/-- One observation step of a stored spend proposal: unchanged, or
strictly forward in the state order (this excludes revisiting any state
and excludes leaving a terminal state). -/
def spendForwardStep (sp sp' : SpendProposal) : Prop :=
  sp' = sp ∨ spendRank sp.state < spendRank sp'.state

theorem spendForwardStep_trans {a b c : SpendProposal}
    (h₁ : spendForwardStep a b) (h₂ : spendForwardStep b c) :
    spendForwardStep a c := by
  rcases h₁ with rfl | h₁
  · exact h₂
  · rcases h₂ with rfl | h₂
    · exact Or.inr h₁
    · exact Or.inr (Nat.lt_trans h₁ h₂)

theorem summon_props_frame (env : Env) (caller : AccountId) (org dep : Nat)
    (ctrl : Option AccountId) (w : World) :
    (summon_moloch env caller org dep ctrl w).1.store.spendProps = w.store.spendProps
    ∧ (summon_moloch env caller org dep ctrl w).1.store.memberProps
        = w.store.memberProps := by
  by_cases hreg : (alookup w.store.orgBankRegistrar org).isSome = true
  · simp [summon_moloch, hreg]
  · by_cases hm : env.isMember org caller = true
    · rcases ho : open_bank_account env caller org dep ctrl w with ⟨w1, r⟩
      cases r with
      | error e =>
          obtain ⟨_, _, _, hsp, hmp⟩ :=
            open_bank_fail_char env caller org dep ctrl w w1 e ho
          simp only [summon_moloch, hreg, Bool.false_eq_true, if_false, hm,
            if_true, ho]
          exact ⟨hsp, hmp⟩
      | ok id =>
          obtain ⟨_, _, _, _, hsp, hmp⟩ :=
            open_bank_success_char env caller org dep ctrl w w1 id ho
          simp only [summon_moloch, hreg, Bool.false_eq_true, if_false, hm,
            if_true, ho]
          exact ⟨hsp, hmp⟩
    · simp [summon_moloch, hreg, hm]

theorem member_proposes_spend_store (env : Env) (caller : AccountId)
    (bid amount : Nat) (dest : AccountId) (w : World) :
    (member_proposes_spend env caller bid amount dest w).1.store
      = (propose_spend env caller bid amount dest w).1.store := by
  unfold member_proposes_spend
  rcases hr : propose_spend env caller bid amount dest w with ⟨w1, r⟩
  cases r <;> simp [hr]

theorem member_triggers_vote_spend_store (env : Env) (caller : AccountId)
    (bid sid : Nat) (w : World) :
    (member_triggers_vote_on_spend_proposal env caller bid sid w).1.store
      = (trigger_vote_on_spend_proposal env caller bid sid w).1.store := by
  unfold member_triggers_vote_on_spend_proposal
  rcases hr : trigger_vote_on_spend_proposal env caller bid sid w with ⟨w1, r⟩
  cases r <;> simp [hr]

theorem member_sudo_store (env : Env) (caller : AccountId)
    (bid sid : Nat) (w : World) :
    (member_sudo_approves_spend_proposal env caller bid sid w).1.store
      = (sudo_approve_spend_proposal env caller bid sid w).1.store := by
  unfold member_sudo_approves_spend_proposal
  rcases hr : sudo_approve_spend_proposal env caller bid sid w with ⟨w1, r⟩
  cases r <;> simp [hr]

theorem propose_spend_pointwise (env : Env) (caller : AccountId)
    (bid amount : Nat) (dest : AccountId) (w : World) (k : Nat × Nat)
    (sp : SpendProposal) (h : alookup w.store.spendProps k = some sp) :
    alookup (propose_spend env caller bid amount dest w).1.store.spendProps k
      = some sp := by
  cases hb : alookup w.store.bankStores bid with
  | none =>
      simp only [propose_spend, hb]
      exact h
  | some bank =>
      by_cases hm : env.isMember bank.org caller = true
      · have hfresh := (generate_spend_uid_spec w bid).2
        have hk : k ≠ (bid, (generate_spend_uid w bid).2) := by
          intro he
          rw [he, hfresh] at h
          exact Option.noConfusion h
        simp only [propose_spend, hb, hm, if_true]
        rw [alookup_ainsert_ne _ _ _ _ hk]
        exact h
      · simp only [propose_spend, hb, if_neg hm]
        exact h

theorem trigger_spend_pointwise (env : Env) (caller : AccountId)
    (bid sid : Nat) (w : World) (k : Nat × Nat) (sp : SpendProposal)
    (h : alookup w.store.spendProps k = some sp) :
    ∃ sp', alookup
        (trigger_vote_on_spend_proposal env caller bid sid w).1.store.spendProps k
        = some sp'
      ∧ (sp' = sp ∨ (sp.state = .WaitingForApproval
          ∧ ∃ v, sp' = sp.set_state (.Voting v))) := by
  cases hb : alookup w.store.bankStores bid with
  | none =>
      simp only [trigger_vote_on_spend_proposal, hb]
      exact ⟨sp, h, Or.inl rfl⟩
  | some bank =>
      by_cases hm : env.isMember bank.org caller = true
      · cases hp : alookup w.store.spendProps (bid, sid) with
        | none =>
            simp only [trigger_vote_on_spend_proposal, hb, hm, if_true, hp]
            exact ⟨sp, h, Or.inl rfl⟩
        | some sp0 =>
            cases hst : sp0.state with
            | WaitingForApproval =>
                cases hov : env.openVote bank.org with
                | none =>
                    simp only [trigger_vote_on_spend_proposal, hb, hm, if_true,
                      hp, hst, hov]
                    exact ⟨sp, h, Or.inl rfl⟩
                | some vid =>
                    simp only [trigger_vote_on_spend_proposal, hb, hm, if_true,
                      hp, hst, hov]
                    by_cases hk : k = (bid, sid)
                    · subst hk
                      rw [alookup_ainsert_self]
                      have hsp0 : sp = sp0 := by
                        rw [h] at hp
                        exact Option.some.inj hp
                      subst hsp0
                      exact ⟨_, rfl, Or.inr ⟨hst, vid, rfl⟩⟩
                    · rw [alookup_ainsert_ne _ _ _ _ hk]
                      exact ⟨sp, h, Or.inl rfl⟩
            | Voting v =>
                simp only [trigger_vote_on_spend_proposal, hb, hm, if_true, hp, hst]
                exact ⟨sp, h, Or.inl rfl⟩
            | ApprovedAndExecuted =>
                simp only [trigger_vote_on_spend_proposal, hb, hm, if_true, hp, hst]
                exact ⟨sp, h, Or.inl rfl⟩
            | ApprovedButNotExecuted =>
                simp only [trigger_vote_on_spend_proposal, hb, hm, if_true, hp, hst]
                exact ⟨sp, h, Or.inl rfl⟩
      · simp only [trigger_vote_on_spend_proposal, hb, if_neg hm]
        exact ⟨sp, h, Or.inl rfl⟩

theorem sudo_spend_pointwise (env : Env) (caller : AccountId)
    (bid sid : Nat) (w : World) (k : Nat × Nat) (sp : SpendProposal)
    (h : alookup w.store.spendProps k = some sp) :
    ∃ sp', alookup
        (sudo_approve_spend_proposal env caller bid sid w).1.store.spendProps k
        = some sp'
      ∧ (sp' = sp ∨ ((sp.state = .WaitingForApproval ∨ ∃ v, sp.state = .Voting v)
          ∧ (sp' = sp.set_state .ApprovedAndExecuted
             ∨ sp' = sp.set_state .ApprovedButNotExecuted))) := by
  cases hb : alookup w.store.bankStores bid with
  | none =>
      simp only [sudo_approve_spend_proposal, hb]
      exact ⟨sp, h, Or.inl rfl⟩
  | some bank =>
      by_cases hc : bank.is_controller caller = true
      · cases hp : alookup w.store.spendProps (bid, sid) with
        | none =>
            simp only [sudo_approve_spend_proposal, hb, hc, if_true, hp]
            exact ⟨sp, h, Or.inl rfl⟩
        | some sp0 =>
            rcases hT : doTransfer env (bank_account_id bid) sp0.dest sp0.amount w
              with ⟨w2, r⟩
            have hf := (doTransfer_frame env (bank_account_id bid) sp0.dest
              sp0.amount w).1
            rw [hT] at hf
            have hf' : w2.store = w.store := hf
            have hbranch : ∀ hstv : sp0.state = .WaitingForApproval
                ∨ ∃ v, sp0.state = .Voting v,
                ∃ sp', alookup (ainsert w2.store.spendProps (bid, sid)
                    (sp0.set_state (match r with
                      | .ok _ => .ApprovedAndExecuted
                      | .error _ => .ApprovedButNotExecuted))) k = some sp'
                  ∧ (sp' = sp ∨ ((sp.state = .WaitingForApproval
                      ∨ ∃ v, sp.state = .Voting v)
                      ∧ (sp' = sp.set_state .ApprovedAndExecuted
                         ∨ sp' = sp.set_state .ApprovedButNotExecuted))) := by
              intro hstv
              by_cases hk : k = (bid, sid)
              · subst hk
                rw [alookup_ainsert_self]
                have hsp0 : sp = sp0 := by
                  rw [h] at hp
                  exact Option.some.inj hp
                subst hsp0
                refine ⟨_, rfl, Or.inr ⟨hstv, ?_⟩⟩
                cases r with
                | ok u => exact Or.inl rfl
                | error e => exact Or.inr rfl
              · rw [alookup_ainsert_ne _ _ _ _ hk, hf']
                exact ⟨sp, h, Or.inl rfl⟩
            cases hst : sp0.state with
            | WaitingForApproval =>
                simp only [sudo_approve_spend_proposal, hb, hc, if_true, hp, hst, hT]
                exact hbranch (Or.inl hst)
            | Voting v =>
                simp only [sudo_approve_spend_proposal, hb, hc, if_true, hp, hst, hT]
                exact hbranch (Or.inr ⟨v, hst⟩)
            | ApprovedAndExecuted =>
                simp only [sudo_approve_spend_proposal, hb, hc, if_true, hp, hst]
                exact ⟨sp, h, Or.inl rfl⟩
            | ApprovedButNotExecuted =>
                simp only [sudo_approve_spend_proposal, hb, hc, if_true, hp, hst]
                exact ⟨sp, h, Or.inl rfl⟩
      · simp only [sudo_approve_spend_proposal, hb, if_neg hc]
        exact ⟨sp, h, Or.inl rfl⟩

theorem spendForwardStep_of_trigger {sp sp' : SpendProposal}
    (h : sp' = sp ∨ (sp.state = .WaitingForApproval
        ∧ ∃ v, sp' = sp.set_state (.Voting v))) :
    spendForwardStep sp sp' := by
  rcases h with rfl | ⟨hw, v, rfl⟩
  · exact Or.inl rfl
  · right
    rw [hw]
    exact Nat.zero_lt_one

theorem spendForwardStep_of_terminal {sp sp' : SpendProposal}
    (hst : sp.state = .WaitingForApproval ∨ ∃ v, sp.state = .Voting v)
    (hsp' : sp' = sp.set_state .ApprovedAndExecuted
        ∨ sp' = sp.set_state .ApprovedButNotExecuted) :
    spendForwardStep sp sp' := by
  right
  have h2 : spendRank sp'.state = 2 := by
    rcases hsp' with rfl | rfl <;> rfl
  have h1 : spendRank sp.state < 2 := by
    rcases hst with hw | ⟨v, hv⟩
    · rw [hw]; exact Nat.zero_lt_two
    · rw [hv]; exact Nat.one_lt_two
  omega

theorem poll_spend_pointwise (env : Env) (bid sid : Nat) (w : World)
    (k : Nat × Nat) (sp : SpendProposal)
    (h : alookup w.store.spendProps k = some sp) :
    ∃ sp', alookup (poll_spend_proposal env bid sid w).1.store.spendProps k
        = some sp'
      ∧ (sp' = sp ∨ ((∃ v, sp.state = .Voting v)
          ∧ (sp' = sp.set_state .ApprovedAndExecuted
             ∨ sp' = sp.set_state .ApprovedButNotExecuted))) := by
  cases hb : alookup w.store.bankStores bid with
  | none =>
      simp only [poll_spend_proposal, hb]
      exact ⟨sp, h, Or.inl rfl⟩
  | some bank =>
      cases hp : alookup w.store.spendProps (bid, sid) with
      | none =>
          simp only [poll_spend_proposal, hb, hp]
          exact ⟨sp, h, Or.inl rfl⟩
      | some sp0 =>
          cases hst : sp0.state with
          | WaitingForApproval =>
              simp only [poll_spend_proposal, hb, hp, hst]
              exact ⟨sp, h, Or.inl rfl⟩
          | ApprovedAndExecuted =>
              simp only [poll_spend_proposal, hb, hp, hst]
              exact ⟨sp, h, Or.inl rfl⟩
          | ApprovedButNotExecuted =>
              simp only [poll_spend_proposal, hb, hp, hst]
              exact ⟨sp, h, Or.inl rfl⟩
          | Voting v =>
              cases ho : env.voteOutcome v with
              | none =>
                  simp only [poll_spend_proposal, hb, hp, hst, ho]
                  exact ⟨sp, h, Or.inl rfl⟩
              | some o =>
                  by_cases happ : o = VoteOutcome.Approved
                  · rcases hT : doTransfer env (bank_account_id bid) sp0.dest
                        sp0.amount w with ⟨w2, r⟩
                    have hf : w2.store = w.store := by
                      have := (doTransfer_frame env (bank_account_id bid)
                        sp0.dest sp0.amount w).1
                      rw [hT] at this
                      exact this
                    simp only [poll_spend_proposal, hb, hp, hst, ho, happ,
                      if_true, hT]
                    by_cases hk : k = (bid, sid)
                    · subst hk
                      rw [alookup_ainsert_self]
                      have hsp0 : sp = sp0 := by
                        rw [h] at hp
                        exact Option.some.inj hp
                      subst hsp0
                      refine ⟨_, rfl, Or.inr ⟨⟨v, hst⟩, ?_⟩⟩
                      cases r with
                      | ok u => exact Or.inl rfl
                      | error e => exact Or.inr rfl
                    · rw [alookup_ainsert_ne _ _ _ _ hk, hf]
                      exact ⟨sp, h, Or.inl rfl⟩
                  · simp only [poll_spend_proposal, hb, hp, hst, ho, if_neg happ]
                    exact ⟨sp, h, Or.inl rfl⟩

theorem sweep_spend_pointwise (env : Env) : ∀ (keys : List (Nat × Nat)) (w : World)
    (k : Nat × Nat) (sp : SpendProposal),
    alookup w.store.spendProps k = some sp →
    ∃ sp', alookup (sweep_spend env keys w).store.spendProps k = some sp'
      ∧ spendForwardStep sp sp' := by
  intro keys
  induction keys with
  | nil =>
      intro w k sp h
      exact ⟨sp, h, Or.inl rfl⟩
  | cons hd rest ih =>
      intro w k sp h
      obtain ⟨bid, sid⟩ := hd
      rcases hp : poll_spend_proposal env bid sid w with ⟨w1, r⟩
      obtain ⟨sp1, h1, hrel⟩ := poll_spend_pointwise env bid sid w k sp h
      rw [hp] at h1
      have hstep : spendForwardStep sp sp1 := by
        rcases hrel with rfl | ⟨hv, hterm⟩
        · exact Or.inl rfl
        · exact spendForwardStep_of_terminal (Or.inr hv) hterm
      cases r with
      | error e =>
          simp only [sweep_spend, hp]
          exact ⟨sp1, h1, hstep⟩
      | ok st =>
          simp only [sweep_spend, hp]
          obtain ⟨sp2, h2, hstep2⟩ :=
            ih { w1 with events := w1.events ++ [.SpendProposalPolled bid sid st] }
              k sp1 h1
          exact ⟨sp2, h2, spendForwardStep_trans hstep hstep2⟩

theorem on_finalize_spend_pointwise (env : Env) (n : Nat) (w : World)
    (k : Nat × Nat) (sp : SpendProposal)
    (h : alookup w.store.spendProps k = some sp) :
    ∃ sp', alookup (on_finalize env n w).store.spendProps k = some sp'
      ∧ spendForwardStep sp sp' := by
  unfold on_finalize
  by_cases h1 : n % w.store.spendPollFrequency = 0
  · obtain ⟨sp1, hl1, hs1⟩ :=
      sweep_spend_pointwise env (akeys w.store.spendProps) w k sp h
    have hfreq : (sweep_spend env (akeys w.store.spendProps) w).store.memberPollFrequency
        = w.store.memberPollFrequency := by
      obtain ⟨sps, hs⟩ := sweep_spend_shape env (akeys w.store.spendProps) w
      rw [hs]
    simp only [h1, if_true, hfreq]
    by_cases h2 : n % w.store.memberPollFrequency = 0
    · simp only [h2, if_true]
      obtain ⟨mps, hm⟩ := sweep_member_shape env
        (akeys (sweep_spend env (akeys w.store.spendProps) w).store.memberProps)
        (sweep_spend env (akeys w.store.spendProps) w)
      refine ⟨sp1, ?_, hs1⟩
      rw [hm]
      exact hl1
    · simp only [h2, if_false]
      exact ⟨sp1, hl1, hs1⟩
  · simp only [if_neg h1]
    by_cases h2 : n % w.store.memberPollFrequency = 0
    · simp only [h2, if_true]
      obtain ⟨mps, hm⟩ := sweep_member_shape env (akeys w.store.memberProps) w
      refine ⟨sp, ?_, Or.inl rfl⟩
      rw [hm]
      exact h
    · simp only [if_neg h2]
      exact ⟨sp, h, Or.inl rfl⟩

/-- Claim C4: a stored spend proposal is never deleted, and under every
operation of the module (propose, trigger vote, sudo approve, poll, the
membership operations, close, and the finalize hook) its stored state
either stays unchanged or moves strictly forward in the order
`WaitingForApproval`, `Voting(_)`, `{ApprovedAndExecuted |
ApprovedButNotExecuted}`; hence over any operation sequence the observed
state sequence follows that chain, no state is revisited, and no
operation moves a proposal out of a terminal state. -/
theorem spend_state_forward (env : Env) (op : Op) (w : World) (bid sid : Nat)
    (sp : SpendProposal)
    (h : alookup w.store.spendProps (bid, sid) = some sp) :
    ∃ sp', alookup (applyOp env op w).store.spendProps (bid, sid) = some sp'
      ∧ spendForwardStep sp sp' := by
  cases op with
  | summon caller org deposit controller =>
      simp only [applyOp, applyOpE]
      rw [(summon_props_frame env caller org deposit controller w).1]
      exact ⟨sp, h, Or.inl rfl⟩
  | proposeSpend caller bank amount dest =>
      simp only [applyOp, applyOpE]
      rw [member_proposes_spend_store]
      exact ⟨sp, propose_spend_pointwise env caller bank amount dest w _ sp h,
        Or.inl rfl⟩
  | triggerVoteSpend caller bank spend =>
      simp only [applyOp, applyOpE]
      rw [member_triggers_vote_spend_store]
      obtain ⟨sp', h', hrel⟩ :=
        trigger_spend_pointwise env caller bank spend w _ sp h
      exact ⟨sp', h', spendForwardStep_of_trigger hrel⟩
  | sudoApproveSpend caller bank spend =>
      simp only [applyOp, applyOpE]
      rw [member_sudo_store]
      obtain ⟨sp', h', hrel⟩ := sudo_spend_pointwise env caller bank spend w _ sp h
      refine ⟨sp', h', ?_⟩
      rcases hrel with rfl | ⟨hst, hterm⟩
      · exact Or.inl rfl
      · exact spendForwardStep_of_terminal hst hterm
  | pollSpend bank spend =>
      simp only [applyOp, applyOpE]
      obtain ⟨sp', h', hrel⟩ := poll_spend_pointwise env bank spend w _ sp h
      refine ⟨sp', h', ?_⟩
      rcases hrel with rfl | ⟨hv, hterm⟩
      · exact Or.inl rfl
      · exact spendForwardStep_of_terminal (Or.inr hv) hterm
  | proposeMember caller bank tribute shares applicant =>
      simp only [applyOp, applyOpE]
      obtain ⟨pn, mps, hs⟩ :=
        member_proposes_member_shape env caller bank tribute shares applicant w
      rw [hs]
      exact ⟨sp, h, Or.inl rfl⟩
  | triggerVoteMember caller bank proposal =>
      simp only [applyOp, applyOpE]
      obtain ⟨mps, hs⟩ := member_triggers_vote_member_shape env caller bank proposal w
      rw [hs]
      exact ⟨sp, h, Or.inl rfl⟩
  | pollMember bank proposal =>
      simp only [applyOp, applyOpE]
      obtain ⟨mps, hs, _⟩ := poll_member_shape env bank proposal w
      rw [hs]
      exact ⟨sp, h, Or.inl rfl⟩
  | closeBank closer bank =>
      simp only [applyOp, applyOpE]
      rw [(close_props_frame env closer bank w).1]
      exact ⟨sp, h, Or.inl rfl⟩
  | finalize n =>
      simp only [applyOp, applyOpE]
      exact on_finalize_spend_pointwise env n w _ sp h

/-- Witness for C4: triggering a vote on the waiting proposal (1,1) in
the concrete world moves it forward. -/
theorem spend_state_forward_witness :
    ∃ sp', alookup (applyOp envW (.triggerVoteSpend (.user 0) 1 1)
        wW).store.spendProps (1, 1) = some sp'
      ∧ spendForwardStep spW sp' :=
  spend_state_forward envW (.triggerVoteSpend (.user 0) 1 1) wW 1 1 spW (by decide)

theorem sweep_spend_events_mono (env : Env) : ∀ (keys : List (Nat × Nat)) (w : World)
    (ev : Event), ev ∈ w.events → ev ∈ (sweep_spend env keys w).events := by
  intro keys
  induction keys with
  | nil => intro w ev h; exact h
  | cons hd rest ih =>
      intro w ev h
      obtain ⟨bid, sid⟩ := hd
      rcases hp : poll_spend_proposal env bid sid w with ⟨w1, r⟩
      have hev : w1.events = w.events := by
        have := (poll_spend_shape env bid sid w).choose_spec.2
        rw [hp] at this
        exact this
      cases r with
      | error e =>
          simp only [sweep_spend, hp]
          rw [hev]
          exact h
      | ok st =>
          simp only [sweep_spend, hp]
          exact ih _ ev (by
            simp only [List.mem_append]
            exact Or.inl (hev ▸ h))

theorem sweep_member_events_mono (env : Env) : ∀ (keys : List (Nat × Nat)) (w : World)
    (ev : Event), ev ∈ w.events → ev ∈ (sweep_member env keys w).events := by
  intro keys
  induction keys with
  | nil => intro w ev h; exact h
  | cons hd rest ih =>
      intro w ev h
      obtain ⟨bid, pid⟩ := hd
      rcases hp : poll_membership_proposal env bid pid w with ⟨w1, r⟩
      have hev : w1.events = w.events := by
        have := (poll_member_shape env bid pid w).choose_spec.2
        rw [hp] at this
        exact this
      cases r with
      | error e =>
          simp only [sweep_member, hp]
          rw [hev]
          exact h
      | ok st =>
          simp only [sweep_member, hp]
          exact ih _ ev (by
            simp only [List.mem_append]
            exact Or.inl (hev ▸ h))

theorem poll_spend_ok (env : Env) (bid sid : Nat) (w : World)
    (hb : (alookup w.store.bankStores bid).isSome)
    (hp : (alookup w.store.spendProps (bid, sid)).isSome)
    (hv : ∀ sp, alookup w.store.spendProps (bid, sid) = some sp →
        ∀ v, sp.state = .Voting v → (env.voteOutcome v).isSome) :
    ∃ st, (poll_spend_proposal env bid sid w).2 = .ok st := by
  obtain ⟨bank, hb'⟩ := Option.isSome_iff_exists.1 hb
  obtain ⟨sp, hp'⟩ := Option.isSome_iff_exists.1 hp
  cases hst : sp.state with
  | WaitingForApproval =>
      simp only [poll_spend_proposal, hb', hp', hst]
      exact ⟨_, rfl⟩
  | ApprovedAndExecuted =>
      simp only [poll_spend_proposal, hb', hp', hst]
      exact ⟨_, rfl⟩
  | ApprovedButNotExecuted =>
      simp only [poll_spend_proposal, hb', hp', hst]
      exact ⟨_, rfl⟩
  | Voting v =>
      obtain ⟨o, ho⟩ := Option.isSome_iff_exists.1 (hv sp hp' v hst)
      by_cases happ : o = VoteOutcome.Approved
      · simp only [poll_spend_proposal, hb', hp', hst, ho, happ, if_true]
        exact ⟨_, rfl⟩
      · simp only [poll_spend_proposal, hb', hp', hst, ho, if_neg happ]
        exact ⟨_, rfl⟩

theorem poll_member_ok (env : Env) (bid pid : Nat) (w : World)
    (hb : (alookup w.store.bankStores bid).isSome)
    (hp : (alookup w.store.memberProps (bid, pid)).isSome)
    (hv : ∀ mp, alookup w.store.memberProps (bid, pid) = some mp →
        ∀ v, mp.state = .Voting v → (env.voteOutcome v).isSome) :
    ∃ st, (poll_membership_proposal env bid pid w).2 = .ok st := by
  obtain ⟨bank, hb'⟩ := Option.isSome_iff_exists.1 hb
  obtain ⟨mp, hp'⟩ := Option.isSome_iff_exists.1 hp
  cases hst : mp.state with
  | WaitingForApproval =>
      simp only [poll_membership_proposal, hb', hp', hst]
      exact ⟨_, rfl⟩
  | ApprovedAndExecuted =>
      simp only [poll_membership_proposal, hb', hp', hst]
      exact ⟨_, rfl⟩
  | ApprovedButNotExecuted =>
      simp only [poll_membership_proposal, hb', hp', hst]
      exact ⟨_, rfl⟩
  | Voting v =>
      obtain ⟨o, ho⟩ := Option.isSome_iff_exists.1 (hv mp hp' v hst)
      by_cases happ : o = VoteOutcome.Approved
      · simp only [poll_membership_proposal, hb', hp', hst, ho, happ, if_true]
        exact ⟨_, rfl⟩
      · simp only [poll_membership_proposal, hb', hp', hst, ho, if_neg happ]
        exact ⟨_, rfl⟩

theorem poll_spend_lookup_cases (env : Env) (bid sid : Nat) (w : World)
    (k : Nat × Nat) :
    alookup (poll_spend_proposal env bid sid w).1.store.spendProps k
      = alookup w.store.spendProps k
    ∨ ∃ sp', alookup (poll_spend_proposal env bid sid w).1.store.spendProps k
        = some sp'
      ∧ (sp'.state = .ApprovedAndExecuted ∨ sp'.state = .ApprovedButNotExecuted) := by
  cases hb : alookup w.store.bankStores bid with
  | none =>
      simp only [poll_spend_proposal, hb]
      exact Or.inl trivial
  | some bank =>
      cases hp : alookup w.store.spendProps (bid, sid) with
      | none =>
          simp only [poll_spend_proposal, hb, hp]
          exact Or.inl trivial
      | some sp0 =>
          cases hst : sp0.state with
          | WaitingForApproval =>
              simp only [poll_spend_proposal, hb, hp, hst]
              exact Or.inl trivial
          | ApprovedAndExecuted =>
              simp only [poll_spend_proposal, hb, hp, hst]
              exact Or.inl trivial
          | ApprovedButNotExecuted =>
              simp only [poll_spend_proposal, hb, hp, hst]
              exact Or.inl trivial
          | Voting v =>
              cases ho : env.voteOutcome v with
              | none =>
                  simp only [poll_spend_proposal, hb, hp, hst, ho]
                  exact Or.inl trivial
              | some o =>
                  by_cases happ : o = VoteOutcome.Approved
                  · rcases hT : doTransfer env (bank_account_id bid) sp0.dest
                        sp0.amount w with ⟨w2, r⟩
                    have hf : w2.store = w.store := by
                      have := (doTransfer_frame env (bank_account_id bid)
                        sp0.dest sp0.amount w).1
                      rw [hT] at this
                      exact this
                    simp only [poll_spend_proposal, hb, hp, hst, ho, happ,
                      if_true, hT]
                    by_cases hk : k = (bid, sid)
                    · subst hk
                      rw [alookup_ainsert_self]
                      refine Or.inr ⟨_, rfl, ?_⟩
                      cases r with
                      | ok u => exact Or.inl rfl
                      | error e => exact Or.inr rfl
                    · rw [alookup_ainsert_ne _ _ _ _ hk, hf]
                      exact Or.inl rfl
                  · simp only [poll_spend_proposal, hb, hp, hst, ho, if_neg happ]
                    exact Or.inl trivial

theorem poll_member_lookup_cases (env : Env) (bid pid : Nat) (w : World)
    (k : Nat × Nat) :
    alookup (poll_membership_proposal env bid pid w).1.store.memberProps k
      = alookup w.store.memberProps k
    ∨ ∃ mp', alookup (poll_membership_proposal env bid pid w).1.store.memberProps k
        = some mp'
      ∧ (mp'.state = .ApprovedAndExecuted ∨ mp'.state = .ApprovedButNotExecuted) := by
  cases hb : alookup w.store.bankStores bid with
  | none =>
      simp only [poll_membership_proposal, hb]
      exact Or.inl trivial
  | some bank =>
      cases hp : alookup w.store.memberProps (bid, pid) with
      | none =>
          simp only [poll_membership_proposal, hb, hp]
          exact Or.inl trivial
      | some mp0 =>
          cases hst : mp0.state with
          | WaitingForApproval =>
              simp only [poll_membership_proposal, hb, hp, hst]
              exact Or.inl trivial
          | ApprovedAndExecuted =>
              simp only [poll_membership_proposal, hb, hp, hst]
              exact Or.inl trivial
          | ApprovedButNotExecuted =>
              simp only [poll_membership_proposal, hb, hp, hst]
              exact Or.inl trivial
          | Voting v =>
              cases ho : env.voteOutcome v with
              | none =>
                  simp only [poll_membership_proposal, hb, hp, hst, ho]
                  exact Or.inl trivial
              | some o =>
                  by_cases happ : o = VoteOutcome.Approved
                  · rcases hT : execute_member_proposal env bank mp0.applicant
                        mp0.tribute mp0.shares_requested w with ⟨w2, r⟩
                    have hf : w2.store = w.store := by
                      have := (execute_member_frame env bank mp0.applicant
                        mp0.tribute mp0.shares_requested w).1
                      rw [hT] at this
                      exact this
                    simp only [poll_membership_proposal, hb, hp, hst, ho, happ,
                      if_true, hT]
                    by_cases hk : k = (bid, pid)
                    · subst hk
                      rw [alookup_ainsert_self]
                      refine Or.inr ⟨_, rfl, ?_⟩
                      cases r with
                      | ok u => exact Or.inl rfl
                      | error e => exact Or.inr rfl
                    · rw [alookup_ainsert_ne _ _ _ _ hk, hf]
                      exact Or.inl rfl
                  · simp only [poll_membership_proposal, hb, hp, hst, ho,
                      if_neg happ]
                    exact Or.inl trivial

theorem sweep_spend_polls_all (env : Env) : ∀ (keys : List (Nat × Nat)) (w : World),
    (∀ k, k ∈ keys → (alookup w.store.bankStores k.1).isSome) →
    (∀ k, k ∈ keys → (alookup w.store.spendProps k).isSome) →
    (∀ k sp, alookup w.store.spendProps k = some sp →
        ∀ v, sp.state = SpendState.Voting v → (env.voteOutcome v).isSome) →
    ∀ k, k ∈ keys →
      ∃ st, Event.SpendProposalPolled k.1 k.2 st
        ∈ (sweep_spend env keys w).events := by
  intro keys
  induction keys with
  | nil =>
      intro w _ _ _ k hk
      simp at hk
  | cons hd rest ih =>
      intro w hb hp hv k hk
      obtain ⟨bid, sid⟩ := hd
      obtain ⟨st, hok⟩ := poll_spend_ok env bid sid w
        (hb _ (List.mem_cons_self _ _)) (hp _ (List.mem_cons_self _ _))
        (fun sp hsp v hvv => hv _ sp hsp v hvv)
      rcases hpoll : poll_spend_proposal env bid sid w with ⟨w1, r⟩
      rw [hpoll] at hok
      cases r with
      | error e => exact absurd hok (by simp)
      | ok st' =>
          simp only [sweep_spend, hpoll]
          obtain ⟨sps, hsh, _⟩ := poll_spend_shape env bid sid w
          rw [hpoll] at hsh
          rcases List.mem_cons.1 hk with rfl | hkrest
          · refine ⟨st', sweep_spend_events_mono env rest _ _ ?_⟩
            simp
          · have hcases' : ∀ k₂,
                alookup ({ w1 with events := w1.events
                    ++ [Event.SpendProposalPolled bid sid st'] } : World).store.spendProps k₂
                  = alookup w.store.spendProps k₂
                ∨ ∃ sp', alookup ({ w1 with events := w1.events
                    ++ [Event.SpendProposalPolled bid sid st'] } : World).store.spendProps k₂
                    = some sp'
                  ∧ (sp'.state = .ApprovedAndExecuted
                     ∨ sp'.state = .ApprovedButNotExecuted) := by
              intro k₂
              have h := poll_spend_lookup_cases env bid sid w k₂
              rw [hpoll] at h
              exact h
            refine ih _ ?_ ?_ ?_ k hkrest
            · intro k₂ hk₂
              have hbkk : ({ w1 with events := w1.events
                  ++ [Event.SpendProposalPolled bid sid st'] } : World).store.bankStores
                  = w.store.bankStores := by
                show w1.store.bankStores = w.store.bankStores
                rw [hsh]
              rw [hbkk]
              exact hb _ (List.mem_cons_of_mem _ hk₂)
            · intro k₂ hk₂
              rcases hcases' k₂ with heq | ⟨sp', hsp', _⟩
              · rw [heq]
                exact hp _ (List.mem_cons_of_mem _ hk₂)
              · simp [hsp']
            · intro k₂ sp hsp v hvv
              rcases hcases' k₂ with heq | ⟨sp', hsp', hterm⟩
              · rw [heq] at hsp
                exact hv _ sp hsp v hvv
              · rw [hsp'] at hsp
                cases Option.some.inj hsp
                rcases hterm with ht | ht <;> rw [ht] at hvv <;>
                  exact SpendState.noConfusion hvv

theorem sweep_member_polls_all (env : Env) : ∀ (keys : List (Nat × Nat)) (w : World),
    (∀ k, k ∈ keys → (alookup w.store.bankStores k.1).isSome) →
    (∀ k, k ∈ keys → (alookup w.store.memberProps k).isSome) →
    (∀ k mp, alookup w.store.memberProps k = some mp →
        ∀ v, mp.state = ProposalState.Voting v → (env.voteOutcome v).isSome) →
    ∀ k, k ∈ keys →
      ∃ st, Event.MemberProposalPolled k.1 k.2 st
        ∈ (sweep_member env keys w).events := by
  intro keys
  induction keys with
  | nil =>
      intro w _ _ _ k hk
      simp at hk
  | cons hd rest ih =>
      intro w hb hp hv k hk
      obtain ⟨bid, pid⟩ := hd
      obtain ⟨st, hok⟩ := poll_member_ok env bid pid w
        (hb _ (List.mem_cons_self _ _)) (hp _ (List.mem_cons_self _ _))
        (fun mp hmp v hvv => hv _ mp hmp v hvv)
      rcases hpoll : poll_membership_proposal env bid pid w with ⟨w1, r⟩
      rw [hpoll] at hok
      cases r with
      | error e => exact absurd hok (by simp)
      | ok st' =>
          simp only [sweep_member, hpoll]
          obtain ⟨mps, hsh, _⟩ := poll_member_shape env bid pid w
          rw [hpoll] at hsh
          rcases List.mem_cons.1 hk with rfl | hkrest
          · refine ⟨st', sweep_member_events_mono env rest _ _ ?_⟩
            simp
          · have hcases' : ∀ k₂,
                alookup ({ w1 with events := w1.events
                    ++ [Event.MemberProposalPolled bid pid st'] } : World).store.memberProps k₂
                  = alookup w.store.memberProps k₂
                ∨ ∃ mp', alookup ({ w1 with events := w1.events
                    ++ [Event.MemberProposalPolled bid pid st'] } : World).store.memberProps k₂
                    = some mp'
                  ∧ (mp'.state = .ApprovedAndExecuted
                     ∨ mp'.state = .ApprovedButNotExecuted) := by
              intro k₂
              have h := poll_member_lookup_cases env bid pid w k₂
              rw [hpoll] at h
              exact h
            refine ih _ ?_ ?_ ?_ k hkrest
            · intro k₂ hk₂
              have hbkk : ({ w1 with events := w1.events
                  ++ [Event.MemberProposalPolled bid pid st'] } : World).store.bankStores
                  = w.store.bankStores := by
                show w1.store.bankStores = w.store.bankStores
                rw [hsh]
              rw [hbkk]
              exact hb _ (List.mem_cons_of_mem _ hk₂)
            · intro k₂ hk₂
              rcases hcases' k₂ with heq | ⟨mp', hmp', _⟩
              · rw [heq]
                exact hp _ (List.mem_cons_of_mem _ hk₂)
              · simp [hmp']
            · intro k₂ mp hmp v hvv
              rcases hcases' k₂ with heq | ⟨mp', hmp', hterm⟩
              · rw [heq] at hmp
                exact hv _ mp hmp v hvv
              · rw [hmp'] at hmp
                cases Option.some.inj hmp
                rcases hterm with ht | ht <;> rw [ht] at hvv <;>
                  exact ProposalState.noConfusion hvv

/-- Claim C6 (amended): at a block number that is not an exact multiple of
the spend poll frequency the finalize hook leaves every spend proposal
unchanged, and likewise for membership proposals and the membership poll
frequency; at an exact multiple the hook polls the stored proposals of
that kind in storage order and emits a polled event for each one,
provided every stored proposal of that kind belongs to an existing bank
and the vote service reports an outcome for every voting proposal (the
error-collecting iteration short-circuits at the first failing poll, so
without that proviso later proposals can be skipped). -/
theorem on_finalize_cadence (env : Env) (n : Nat) (w : World) :
    (¬ n % w.store.spendPollFrequency = 0 →
        (on_finalize env n w).store.spendProps = w.store.spendProps)
    ∧ (¬ n % w.store.memberPollFrequency = 0 →
        (on_finalize env n w).store.memberProps = w.store.memberProps)
    ∧ (n % w.store.spendPollFrequency = 0 →
        (∀ k, k ∈ akeys w.store.spendProps →
          (alookup w.store.bankStores k.1).isSome) →
        (∀ k sp, alookup w.store.spendProps k = some sp →
            ∀ v, sp.state = SpendState.Voting v → (env.voteOutcome v).isSome) →
        ∀ k, k ∈ akeys w.store.spendProps →
          ∃ st, Event.SpendProposalPolled k.1 k.2 st ∈ (on_finalize env n w).events)
    ∧ (n % w.store.memberPollFrequency = 0 →
        (∀ k, k ∈ akeys w.store.memberProps →
          (alookup w.store.bankStores k.1).isSome) →
        (∀ k mp, alookup w.store.memberProps k = some mp →
            ∀ v, mp.state = ProposalState.Voting v → (env.voteOutcome v).isSome) →
        ∀ k, k ∈ akeys w.store.memberProps →
          ∃ st, Event.MemberProposalPolled k.1 k.2 st ∈ (on_finalize env n w).events) := by
  refine ⟨?_, ?_, ?_, ?_⟩
  · intro h1
    unfold on_finalize
    simp only [if_neg h1]
    by_cases h2 : n % w.store.memberPollFrequency = 0
    · simp only [h2, if_true]
      obtain ⟨mps, hm⟩ := sweep_member_shape env (akeys w.store.memberProps) w
      rw [hm]
    · simp only [if_neg h2]
  · intro h2
    unfold on_finalize
    by_cases h1 : n % w.store.spendPollFrequency = 0
    · obtain ⟨sps, hs⟩ := sweep_spend_shape env (akeys w.store.spendProps) w
      have hfreq : (sweep_spend env (akeys w.store.spendProps)
          w).store.memberPollFrequency = w.store.memberPollFrequency := by rw [hs]
      simp only [h1, if_true, hfreq, if_neg h2]
      rw [hs]
    · simp only [if_neg h1, if_neg h2]
  · intro h1 hb hv k hk
    have hp : ∀ k, k ∈ akeys w.store.spendProps →
        (alookup w.store.spendProps k).isSome := by
      intro k hk
      obtain ⟨v, hv'⟩ := mem_akeys.1 hk
      exact alookup_isSome_of_mem hv'
    obtain ⟨st, hst⟩ :=
      sweep_spend_polls_all env (akeys w.store.spendProps) w hb hp hv k hk
    unfold on_finalize
    obtain ⟨sps, hs⟩ := sweep_spend_shape env (akeys w.store.spendProps) w
    have hfreq : (sweep_spend env (akeys w.store.spendProps)
        w).store.memberPollFrequency = w.store.memberPollFrequency := by rw [hs]
    simp only [h1, if_true, hfreq]
    by_cases h2 : n % w.store.memberPollFrequency = 0
    · simp only [h2, if_true]
      exact ⟨st, sweep_member_events_mono env _ _ _ hst⟩
    · simp only [if_neg h2]
      exact ⟨st, hst⟩
  · intro h2 hb hv k hk
    unfold on_finalize
    by_cases h1 : n % w.store.spendPollFrequency = 0
    · obtain ⟨sps, hs⟩ := sweep_spend_shape env (akeys w.store.spendProps) w
      have hfreq : (sweep_spend env (akeys w.store.spendProps)
          w).store.memberPollFrequency = w.store.memberPollFrequency := by rw [hs]
      have hmem : (sweep_spend env (akeys w.store.spendProps)
          w).store.memberProps = w.store.memberProps := by rw [hs]
      have hbk : (sweep_spend env (akeys w.store.spendProps)
          w).store.bankStores = w.store.bankStores := by rw [hs]
      simp only [h1, if_true, hfreq, h2]
      refine sweep_member_polls_all env _ _ ?_ ?_ ?_ k ?_
      · intro k₂ hk₂
        rw [hbk]
        rw [hmem] at hk₂
        exact hb _ hk₂
      · intro k₂ hk₂
        rw [hmem] at hk₂ ⊢
        obtain ⟨v, hv'⟩ := mem_akeys.1 hk₂
        exact alookup_isSome_of_mem hv'
      · intro k₂ mp hmp v hvv
        rw [hmem] at hmp
        exact hv _ mp hmp v hvv
      · rw [hmem]
        exact hk
    · simp only [if_neg h1, h2, if_true]
      have hp : ∀ k, k ∈ akeys w.store.memberProps →
          (alookup w.store.memberProps k).isSome := by
        intro k hk
        obtain ⟨v, hv'⟩ := mem_akeys.1 hk
        exact alookup_isSome_of_mem hv'
      exact sweep_member_polls_all env (akeys w.store.memberProps) w hb hp hv k hk

/-- A world reached from genesis (cadences 5/5) by: summoning banks 1 and
2, proposing spend (1,1) on bank 1 and then spend (2,1) on bank 2,
triggering a vote on (2,1), and closing bank 1 — which leaves proposal
(1,1) dangling at the head of the spend proposal storage. -/
def w6 : World :=
  applyOp envW (.closeBank (.user 0) 1)
    (applyOp envW (.triggerVoteSpend (.user 0) 2 1)
      (applyOp envW (.proposeSpend (.user 0) 2 3 (.user 2))
        (applyOp envW (.proposeSpend (.user 0) 1 3 (.user 2))
          (applyOp envW (.summon (.user 0) 2 20 (some (.user 0)))
            (applyOp envW (.summon (.user 0) 1 20 (some (.user 0)))
              (initWorld 5 5 [] []))))))

/-- Does this event report a poll of spend proposal (b, s)? -/
def isSpendPolledFor (b s : Nat) : Event → Bool
  | .SpendProposalPolled b' s' _ => b' = b && s' = s
  | _ => false

/-- Claim C6 counterexample: at block 5 (an exact multiple of the spend
cadence 5) the finalize hook does not invoke poll on every open spend
proposal: in `w6` the first stored proposal (1,1) belongs to the closed
bank 1, its poll fails, and the short-circuiting `collect` stops the
sweep, so proposal (2,1) of the existing bank 2 — in `Voting 7` with the
vote reported Approved and the transfer admissible, so a direct poll
returns `ApprovedAndExecuted` — is left unpolled: no polled event is
emitted for it and its stored state is still `Voting 7`. -/
theorem on_finalize_short_circuit :
    5 % w6.store.spendPollFrequency = 0
    ∧ (alookup w6.store.bankStores 2).isSome
    ∧ alookup w6.store.spendProps (2, 1) = some ⟨2, 1, 3, .user 2, .Voting 7⟩
    ∧ envW.voteOutcome 7 = some .Approved
    ∧ (poll_spend_proposal envW 2 1 w6).2 = .ok .ApprovedAndExecuted
    ∧ alookup (on_finalize envW 5 w6).store.spendProps (2, 1)
        = some ⟨2, 1, 3, .user 2, .Voting 7⟩
    ∧ (on_finalize envW 5 w6).events.any (isSpendPolledFor 2 1) = false :=
  ⟨rfl, rfl, rfl, rfl, rfl, rfl, rfl⟩

/-- Witness for C6 at concrete inputs: block 4 is a no-op for the spend
cadence 5, and at block 5 every stored spend proposal of `wW` gets a
polled event. -/
theorem on_finalize_cadence_witness :
    (on_finalize envW 4 wW).store.spendProps = wW.store.spendProps
    ∧ ∀ k, k ∈ akeys wW.store.spendProps →
        ∃ st, Event.SpendProposalPolled k.1 k.2 st
          ∈ (on_finalize envW 5 wW).events :=
  ⟨(on_finalize_cadence envW 4 wW).1 (by decide),
   (on_finalize_cadence envW 5 wW).2.2.1 (by decide) (by decide)
     (fun k sp h v hv => rfl)⟩

/-- The module (validation) errors: every variant of the pallet error
enum; `Other` stands for errors of collaborators or the ledger. -/
def Err.isValidation : Err → Bool
  | .Other _ => false
  | _ => true

theorem doTransfer_err (env : Env) (s d : AccountId) (a : Nat) (w : World) (e : Err)
    (h : (doTransfer env s d a w).2 = .error e) :
    e = .Other 0 ∧ (doTransfer env s d a w).1 = w := by
  by_cases ht : env.transferOk s d a = true
  · simp [doTransfer, ht] at h
  · simp only [doTransfer, if_neg ht] at h
    refine ⟨(Except.error.inj h).symm, ?_⟩
    simp only [doTransfer, if_neg ht]

theorem open_bank_err (env : Env) (opener : AccountId) (org dep : Nat)
    (ctrl : Option AccountId) (w : World) (e : Err)
    (h : (open_bank_account env opener org dep ctrl w).2 = .error e) :
    (open_bank_account env opener org dep ctrl w).1 = w ∨ e = .Other 0 := by
  by_cases hdep : dep < env.minDeposit
  · simp only [open_bank_account, if_pos hdep]
    exact Or.inl trivial
  · rcases hT : doTransfer env opener (bank_account_id (generate_bank_uid w).2) dep
        (generate_bank_uid w).1 with ⟨w2, r⟩
    cases r with
    | ok u => simp [open_bank_account, hdep, hT] at h
    | error e' =>
        obtain ⟨he', _⟩ := doTransfer_err env opener
          (bank_account_id (generate_bank_uid w).2) dep (generate_bank_uid w).1 e'
          (by rw [hT])
        simp only [open_bank_account, if_neg hdep, hT] at h
        exact Or.inr ((Except.error.inj h).symm.trans he')

theorem summon_err (env : Env) (caller : AccountId) (org dep : Nat)
    (ctrl : Option AccountId) (w : World) (e : Err)
    (h : (summon_moloch env caller org dep ctrl w).2 = .error e)
    (hval : e.isValidation = true) :
    (summon_moloch env caller org dep ctrl w).1 = w := by
  by_cases hreg : (alookup w.store.orgBankRegistrar org).isSome = true
  · simp [summon_moloch, hreg]
  · by_cases hm : env.isMember org caller = true
    · rcases ho : open_bank_account env caller org dep ctrl w with ⟨w1, r⟩
      cases r with
      | ok id => simp [summon_moloch, hreg, hm, ho] at h
      | error e' =>
          simp only [summon_moloch, hreg, Bool.false_eq_true, if_false, hm,
            if_true, ho] at h ⊢
          have he : e' = e := Except.error.inj h
          rcases open_bank_err env caller org dep ctrl w e' (by rw [ho]) with hw | hother
          · rw [ho] at hw
            exact hw
          · rw [he] at hother
            rw [hother] at hval
            simp [Err.isValidation] at hval
    · simp [summon_moloch, hreg, hm]

theorem propose_spend_err (env : Env) (caller : AccountId) (bid amount : Nat)
    (dest : AccountId) (w : World) (e : Err)
    (h : (propose_spend env caller bid amount dest w).2 = .error e) :
    (propose_spend env caller bid amount dest w).1 = w := by
  cases hb : alookup w.store.bankStores bid with
  | none => simp only [propose_spend, hb]
  | some bank =>
      by_cases hm : env.isMember bank.org caller = true
      · simp [propose_spend, hb, hm] at h
      · simp only [propose_spend, hb, if_neg hm]

theorem member_proposes_spend_err (env : Env) (caller : AccountId)
    (bid amount : Nat) (dest : AccountId) (w : World) (e : Err)
    (h : (member_proposes_spend env caller bid amount dest w).2 = .error e) :
    (member_proposes_spend env caller bid amount dest w).1 = w := by
  rcases hr : propose_spend env caller bid amount dest w with ⟨w1, r⟩
  simp only [member_proposes_spend, hr] at h ⊢
  cases r with
  | ok sid => simp at h
  | error e' =>
      have h1 := propose_spend_err env caller bid amount dest w e' (by rw [hr])
      rw [hr] at h1
      exact h1

theorem trigger_spend_err (env : Env) (caller : AccountId) (bid sid : Nat)
    (w : World) (e : Err)
    (h : (trigger_vote_on_spend_proposal env caller bid sid w).2 = .error e) :
    (trigger_vote_on_spend_proposal env caller bid sid w).1 = w := by
  cases hb : alookup w.store.bankStores bid with
  | none => simp only [trigger_vote_on_spend_proposal, hb]
  | some bank =>
      by_cases hm : env.isMember bank.org caller = true
      · cases hp : alookup w.store.spendProps (bid, sid) with
        | none => simp only [trigger_vote_on_spend_proposal, hb, hm, if_true, hp]
        | some sp =>
            cases hst : sp.state with
            | WaitingForApproval =>
                cases ho : env.openVote bank.org with
                | none =>
                    simp only [trigger_vote_on_spend_proposal, hb, hm, if_true,
                      hp, hst, ho]
                | some vid =>
                    simp [trigger_vote_on_spend_proposal, hb, hm, hp, hst, ho] at h
            | Voting v =>
                simp only [trigger_vote_on_spend_proposal, hb, hm, if_true, hp, hst]
            | ApprovedAndExecuted =>
                simp only [trigger_vote_on_spend_proposal, hb, hm, if_true, hp, hst]
            | ApprovedButNotExecuted =>
                simp only [trigger_vote_on_spend_proposal, hb, hm, if_true, hp, hst]
      · simp only [trigger_vote_on_spend_proposal, hb, if_neg hm]

theorem member_triggers_vote_spend_err (env : Env) (caller : AccountId)
    (bid sid : Nat) (w : World) (e : Err)
    (h : (member_triggers_vote_on_spend_proposal env caller bid sid w).2
        = .error e) :
    (member_triggers_vote_on_spend_proposal env caller bid sid w).1 = w := by
  rcases hr : trigger_vote_on_spend_proposal env caller bid sid w with ⟨w1, r⟩
  simp only [member_triggers_vote_on_spend_proposal, hr] at h ⊢
  cases r with
  | ok vid => simp at h
  | error e' =>
      have h1 := trigger_spend_err env caller bid sid w e' (by rw [hr])
      rw [hr] at h1
      exact h1

theorem sudo_spend_err (env : Env) (caller : AccountId) (bid sid : Nat)
    (w : World) (e : Err)
    (h : (sudo_approve_spend_proposal env caller bid sid w).2 = .error e) :
    (sudo_approve_spend_proposal env caller bid sid w).1 = w := by
  cases hb : alookup w.store.bankStores bid with
  | none => simp only [sudo_approve_spend_proposal, hb]
  | some bank =>
      by_cases hc : bank.is_controller caller = true
      · cases hp : alookup w.store.spendProps (bid, sid) with
        | none => simp only [sudo_approve_spend_proposal, hb, hc, if_true, hp]
        | some sp =>
            cases hst : sp.state with
            | WaitingForApproval =>
                simp [sudo_approve_spend_proposal, hb, hc, hp, hst] at h
            | Voting v =>
                simp [sudo_approve_spend_proposal, hb, hc, hp, hst] at h
            | ApprovedAndExecuted =>
                simp only [sudo_approve_spend_proposal, hb, hc, if_true, hp, hst]
            | ApprovedButNotExecuted =>
                simp only [sudo_approve_spend_proposal, hb, hc, if_true, hp, hst]
      · simp only [sudo_approve_spend_proposal, hb, if_neg hc]

theorem member_sudo_err (env : Env) (caller : AccountId) (bid sid : Nat)
    (w : World) (e : Err)
    (h : (member_sudo_approves_spend_proposal env caller bid sid w).2 = .error e) :
    (member_sudo_approves_spend_proposal env caller bid sid w).1 = w := by
  rcases hr : sudo_approve_spend_proposal env caller bid sid w with ⟨w1, r⟩
  simp only [member_sudo_approves_spend_proposal, hr] at h ⊢
  cases r with
  | ok u => simp at h
  | error e' =>
      have h1 := sudo_spend_err env caller bid sid w e' (by rw [hr])
      rw [hr] at h1
      exact h1

theorem poll_spend_err (env : Env) (bid sid : Nat) (w : World) (e : Err)
    (h : (poll_spend_proposal env bid sid w).2 = .error e) :
    (poll_spend_proposal env bid sid w).1 = w := by
  cases hb : alookup w.store.bankStores bid with
  | none => simp only [poll_spend_proposal, hb]
  | some bank =>
      cases hp : alookup w.store.spendProps (bid, sid) with
      | none => simp only [poll_spend_proposal, hb, hp]
      | some sp =>
          cases hst : sp.state with
          | WaitingForApproval => simp only [poll_spend_proposal, hb, hp, hst]
          | ApprovedAndExecuted => simp only [poll_spend_proposal, hb, hp, hst]
          | ApprovedButNotExecuted => simp only [poll_spend_proposal, hb, hp, hst]
          | Voting v =>
              cases ho : env.voteOutcome v with
              | none => simp only [poll_spend_proposal, hb, hp, hst, ho]
              | some o =>
                  by_cases happ : o = VoteOutcome.Approved
                  · simp [poll_spend_proposal, hb, hp, hst, ho, happ] at h
                  · simp [poll_spend_proposal, hb, hp, hst, ho, happ] at h

theorem propose_membership_err (env : Env) (caller : AccountId)
    (bid tribute shares : Nat) (applicant : AccountId) (w : World) (e : Err)
    (h : (propose_membership env caller bid tribute shares applicant w).2
        = .error e) :
    (propose_membership env caller bid tribute shares applicant w).1 = w := by
  cases hb : alookup w.store.bankStores bid with
  | none => simp only [propose_membership, hb]
  | some bank =>
      by_cases hm : env.isMember bank.org caller = true
      · simp [propose_membership, hb, hm] at h
      · simp only [propose_membership, hb, if_neg hm]

theorem member_proposes_member_err (env : Env) (caller : AccountId)
    (bid tribute shares : Nat) (applicant : AccountId) (w : World) (e : Err)
    (h : (member_proposes_member env caller bid tribute shares applicant w).2
        = .error e) :
    (member_proposes_member env caller bid tribute shares applicant w).1 = w := by
  rcases hr : propose_membership env caller bid tribute shares applicant w
    with ⟨w1, r⟩
  simp only [member_proposes_member, hr] at h ⊢
  cases r with
  | ok pid => simp at h
  | error e' =>
      have h1 := propose_membership_err env caller bid tribute shares applicant w e'
        (by rw [hr])
      rw [hr] at h1
      exact h1

theorem trigger_member_err (env : Env) (caller : AccountId) (bid pid : Nat)
    (w : World) (e : Err)
    (h : (trigger_vote_on_member_proposal env caller bid pid w).2 = .error e) :
    (trigger_vote_on_member_proposal env caller bid pid w).1 = w := by
  cases hb : alookup w.store.bankStores bid with
  | none => simp only [trigger_vote_on_member_proposal, hb]
  | some bank =>
      by_cases hm : env.isMember bank.org caller = true
      · cases hp : alookup w.store.memberProps (bid, pid) with
        | none => simp only [trigger_vote_on_member_proposal, hb, hm, if_true, hp]
        | some mp =>
            cases hst : mp.state with
            | WaitingForApproval =>
                cases ho : env.openVote bank.org with
                | none =>
                    simp only [trigger_vote_on_member_proposal, hb, hm, if_true,
                      hp, hst, ho]
                | some vid =>
                    simp [trigger_vote_on_member_proposal, hb, hm, hp, hst, ho] at h
            | Voting v =>
                simp only [trigger_vote_on_member_proposal, hb, hm, if_true, hp, hst]
            | ApprovedAndExecuted =>
                simp only [trigger_vote_on_member_proposal, hb, hm, if_true, hp, hst]
            | ApprovedButNotExecuted =>
                simp only [trigger_vote_on_member_proposal, hb, hm, if_true, hp, hst]
      · simp only [trigger_vote_on_member_proposal, hb, if_neg hm]

theorem member_triggers_vote_member_err (env : Env) (caller : AccountId)
    (bid pid : Nat) (w : World) (e : Err)
    (h : (member_triggers_vote_on_member_proposal env caller bid pid w).2
        = .error e) :
    (member_triggers_vote_on_member_proposal env caller bid pid w).1 = w := by
  rcases hr : trigger_vote_on_member_proposal env caller bid pid w with ⟨w1, r⟩
  simp only [member_triggers_vote_on_member_proposal, hr] at h ⊢
  cases r with
  | ok vid => simp at h
  | error e' =>
      have h1 := trigger_member_err env caller bid pid w e' (by rw [hr])
      rw [hr] at h1
      exact h1

theorem poll_member_err (env : Env) (bid pid : Nat) (w : World) (e : Err)
    (h : (poll_membership_proposal env bid pid w).2 = .error e) :
    (poll_membership_proposal env bid pid w).1 = w := by
  cases hb : alookup w.store.bankStores bid with
  | none => simp only [poll_membership_proposal, hb]
  | some bank =>
      cases hp : alookup w.store.memberProps (bid, pid) with
      | none => simp only [poll_membership_proposal, hb, hp]
      | some mp =>
          cases hst : mp.state with
          | WaitingForApproval => simp only [poll_membership_proposal, hb, hp, hst]
          | ApprovedAndExecuted => simp only [poll_membership_proposal, hb, hp, hst]
          | ApprovedButNotExecuted =>
              simp only [poll_membership_proposal, hb, hp, hst]
          | Voting v =>
              cases ho : env.voteOutcome v with
              | none => simp only [poll_membership_proposal, hb, hp, hst, ho]
              | some o =>
                  by_cases happ : o = VoteOutcome.Approved
                  · simp [poll_membership_proposal, hb, hp, hst, ho, happ] at h
                  · simp [poll_membership_proposal, hb, hp, hst, ho, happ] at h

theorem close_err (env : Env) (closer : AccountId) (bid : Nat) (w : World) (e : Err)
    (h : (close_org_bank_account env closer bid w).2 = .error e) :
    (close_org_bank_account env closer bid w).1 = w := by
  cases hb : alookup w.store.bankStores bid with
  | none => simp only [close_org_bank_account, hb]
  | some bank =>
      by_cases hc : bank.is_controller closer = true
      · by_cases hd : env.donateOk (bank_account_id bid) bank.org closer
            (w.getBal (bank_account_id bid)) = true
        · simp [close_org_bank_account, hb, hc, hd] at h
        · simp only [close_org_bank_account, hb, hc, if_true, if_neg hd]
      · simp only [close_org_bank_account, hb, if_neg hc]

/-- Claim C7: whenever a command of the module fails with a validation
error (any variant of the module error enum: deposit below minimum,
duplicate organization treasury, not-found treasury/proposal, wrong
proposal state, caller lacks the required role), the error is returned
synchronously and no module state is mutated — the world is exactly the
input world; in particular, for every deposit below the minimum, summon
fails and nothing changes (no treasury, no nonce advance, no counter
change). Errors of collaborators (`Err.Other`, e.g. a failed ledger
transfer after the id nonce advanced) are the only failures outside this
guarantee. -/
theorem validation_errors_pure (env : Env) (w : World) :
    (∀ op e, (applyOpE env op w).2 = .error e → e.isValidation = true →
        (applyOpE env op w).1 = w)
    ∧ ∀ caller org dep ctrl, dep < env.minDeposit →
        ∃ e, summon_moloch env caller org dep ctrl w = (w, .error e) := by
  constructor
  · intro op e herr hval
    cases op with
    | summon caller org deposit controller =>
        simp only [applyOpE] at herr ⊢
        exact summon_err env caller org deposit controller w e herr hval
    | proposeSpend caller bank amount dest =>
        simp only [applyOpE] at herr ⊢
        exact member_proposes_spend_err env caller bank amount dest w e herr
    | triggerVoteSpend caller bank spend =>
        simp only [applyOpE] at herr ⊢
        exact member_triggers_vote_spend_err env caller bank spend w e herr
    | sudoApproveSpend caller bank spend =>
        simp only [applyOpE] at herr ⊢
        exact member_sudo_err env caller bank spend w e herr
    | pollSpend bank spend =>
        simp only [applyOpE] at herr ⊢
        have hres : (poll_spend_proposal env bank spend w).2 = .error e := by
          rcases hp : (poll_spend_proposal env bank spend w).2 with e' | st
          · rw [hp] at herr
            simpa [Except.map] using herr
          · rw [hp] at herr
            simp [Except.map] at herr
        exact poll_spend_err env bank spend w e hres
    | proposeMember caller bank tribute shares applicant =>
        simp only [applyOpE] at herr ⊢
        exact member_proposes_member_err env caller bank tribute shares applicant
          w e herr
    | triggerVoteMember caller bank proposal =>
        simp only [applyOpE] at herr ⊢
        exact member_triggers_vote_member_err env caller bank proposal w e herr
    | pollMember bank proposal =>
        simp only [applyOpE] at herr ⊢
        have hres : (poll_membership_proposal env bank proposal w).2 = .error e := by
          rcases hp : (poll_membership_proposal env bank proposal w).2 with e' | st
          · rw [hp] at herr
            simpa [Except.map] using herr
          · rw [hp] at herr
            simp [Except.map] at herr
        exact poll_member_err env bank proposal w e hres
    | closeBank closer bank =>
        simp only [applyOpE] at herr ⊢
        exact close_err env closer bank w e herr
    | finalize n =>
        simp only [applyOpE] at herr
        exact Except.noConfusion herr
  · intro caller org dep ctrl hdep
    by_cases hreg : (alookup w.store.orgBankRegistrar org).isSome = true
    · exact ⟨.LimitOfOneMolochPerOrg, by simp [summon_moloch, hreg]⟩
    · by_cases hm : env.isMember org caller = true
      · have hopen : open_bank_account env caller org dep ctrl w
            = (w, .error .CannotOpenBankAccountIfDepositIsBelowModuleMinimum) := by
          simp [open_bank_account, hdep]
        refine ⟨.CannotOpenBankAccountIfDepositIsBelowModuleMinimum, ?_⟩
        simp [summon_moloch, hreg, hm, hopen]
      · exact ⟨.NotPermittedToOpenBankAccountForOrg, by simp [summon_moloch, hreg, hm]⟩

/-- Witness for C7: a below-minimum summon from the concrete world fails
synchronously with the world unchanged. -/
theorem validation_errors_pure_witness :
    ∃ e, summon_moloch envW (.user 0) 2 5 none wW = (wW, .error e) :=
  (validation_errors_pure envW wW).2 (.user 0) 2 5 none (by decide)
